import Mathlib

/-!
# Verification of `thunder/viz/colorize.py` (class `Colorize`)

A shallow embedding of the `Colorize` class over exact rationals (Python
floats are modelled as `ℚ`).  Numpy arrays are modelled as nested lists:
an `ndim`-2 array is a `List (List ℚ)`, an `ndim`-3 array a list of such
matrices, and so on.  The external collaborators (matplotlib colormaps,
`hsv_to_rgb`, `Normalize`, numpy `sqrt` / `arctan2`) are modelled as pure
functions; where their values are irrational (`sqrt`, `arctan2`) the model
is exact on the inputs this development evaluates (coordinate axes,
perfect rational squares) and documented at the definition.
-/

namespace Thunder

/-- numpy `clip(x, 0, 1)`. -/
def clip01 (x : ℚ) : ℚ := if x < 0 then 0 else if 1 < x then 1 else x

/-- numpy `clip(x, 0, inf)`, as used by `Colorize._prepareMask`. -/
def clip0 (x : ℚ) : ℚ := if x < 0 then 0 else x

/-- Binary minimum, written with `if` so that concrete values evaluate. -/
def min2 (a b : ℚ) : ℚ := if b < a then b else a

/-- Binary maximum (numpy `maximum`, elementwise). -/
def max2 (a b : ℚ) : ℚ := if a < b then b else a

/-- numpy `min` over a nonempty list of values (`0` on the empty list,
which the code never reaches: numpy raises on empty reductions and the
transform is only invoked on nonempty data). -/
def listMin : List ℚ → ℚ
  | [] => 0
  | x :: xs => xs.foldl min2 x

/-- numpy `max` over a nonempty list of values. -/
def listMax : List ℚ → ℚ
  | [] => 0
  | x :: xs => xs.foldl max2 x

/-- An `ndim`-2 numpy array: a list of rows. -/
abbrev Mat := List (List ℚ)

/-- An `ndim`-3 numpy array: a list of matrices. -/
abbrev Vol := List Mat

/-- An RGB(A) pixel: a list of components (length 3 after the alpha drop). -/
abbrev Pix := List ℚ

/-- A colorized `(x, y, 3)` output plane. -/
abbrev Out := List (List Pix)

/-- A colorized `(x, y, z, 3)` output volume. -/
abbrev Out4 := List Out

/-- Elementwise map over a matrix. -/
def matMap (f : ℚ → ℚ) (m : Mat) : Mat := m.map (List.map f)

/-- Elementwise map over a volume. -/
def volMap (f : ℚ → ℚ) (v : Vol) : Vol := v.map (matMap f)

/-- The shape `(rows, cols)` of a matrix (rectangularity is a hypothesis
of the theorems, as numpy's `asarray` enforces it). -/
def matShape (m : Mat) : List ℕ := [m.length, (m.headD []).length]

/-- The shape of a volume. -/
def volShape (v : Vol) : List ℕ :=
  [v.length, (v.headD []).length, ((v.headD []).headD []).length]

/-- The input image array: numpy arrays of `ndim` 2, 3 or 4, the only
ranks `Colorize.transform` is written for. -/
inductive Arr
  | a2 (m : Mat)
  | a3 (v : Vol)
  | a4 (w : List Vol)

/-- numpy `.shape`. -/
def Arr.shape : Arr → List ℕ
  | .a2 m => matShape m
  | .a3 v => volShape v
  | .a4 w => [w.length, (w.headD []).length, ((w.headD []).headD []).length,
      (((w.headD []).headD []).headD []).length]

/-- All scalar entries of an array (used for the auto-scaling min/max). -/
def Arr.elems : Arr → List ℚ
  | .a2 m => m.flatten
  | .a3 v => (v.map List.flatten).flatten
  | .a4 w => (w.map (fun v => (v.map List.flatten).flatten)).flatten

/-- Elementwise map over an array. -/
def arrMap (f : ℚ → ℚ) : Arr → Arr
  | .a2 m => .a2 (matMap f m)
  | .a3 v => .a3 (volMap f v)
  | .a4 w => .a4 (w.map (volMap f))

/-- Rectangularity of a matrix. -/
def MatWF (x y : ℕ) (m : Mat) : Prop := m.length = x ∧ ∀ r ∈ m, r.length = y

/-- Rectangularity of a volume. -/
def VolWF (x y z : ℕ) (v : Vol) : Prop := v.length = x ∧ ∀ m ∈ v, MatWF y z m

/-- Ternary `zipWith`, needed for three-channel pixel maps. -/
def zipWith3 {α β γ δ : Type} (f : α → β → γ → δ) : List α → List β → List γ → List δ
  | a :: as, b :: bs, c :: cs => f a b c :: zipWith3 f as bs cs
  | _, _, _ => []

/-- Combine three matrices into a pixel plane, elementwise. -/
def matZip3 (f : ℚ → ℚ → ℚ → Pix) (m0 m1 m2 : Mat) : Out :=
  zipWith3 (zipWith3 f) m0 m1 m2

/-- Combine three volumes into a pixel volume, elementwise (the code's
per-`z`-slice loops are elementwise, so they reduce to this). -/
def volZip3 (f : ℚ → ℚ → ℚ → Pix) (v0 v1 v2 : Vol) : Out4 :=
  zipWith3 (matZip3 f) v0 v1 v2

/-- Combine two matrices into a pixel plane, elementwise. -/
def matZip2 (f : ℚ → ℚ → Pix) (m0 m1 : Mat) : Out :=
  List.zipWith (List.zipWith f) m0 m1

/-- Combine two volumes into a pixel volume, elementwise. -/
def volZip2 (f : ℚ → ℚ → Pix) (v0 v1 : Vol) : Out4 :=
  List.zipWith (matZip2 f) v0 v1

/-- Truncation toward zero, numpy's `.astype(int)` on a float. -/
def itrunc (q : ℚ) : ℤ := if q < 0 then -⌊-q⌋ else ⌊q⌋

/-- matplotlib's `hsv_to_rgb`, per pixel: `i = int(h*6)`, `f = h*6 - i`,
`p = v(1-s)`, `q = v(1-s f)`, `t = v(1-s(1-f))`, selected by `i % 6`. -/
def hsv_to_rgb (h s v : ℚ) : Pix :=
  let i : ℤ := itrunc (h * 6)
  let f : ℚ := h * 6 - (i : ℚ)
  let p : ℚ := v * (1 - s)
  let q : ℚ := v * (1 - s * f)
  let t : ℚ := v * (1 - s * (1 - f))
  let r : ℤ := i % 6
  if r = 0 then [v, t, p]
  else if r = 1 then [q, v, p]
  else if r = 2 then [p, v, t]
  else if r = 3 then [p, q, v]
  else if r = 4 then [t, p, v]
  else [v, p, q]

/-- Modelled collaborator: numpy `sqrt` (a real-valued function) on the
rationals.  Exact whenever the argument is the square of a rational — the
only points at which this development evaluates it; the polar theorems are
otherwise independent of its values because both sides of each statement
go through this same function. -/
def ratSqrt (q : ℚ) : ℚ :=
  if q ≤ 0 then 0 else (Nat.sqrt q.num.toNat : ℚ) / (Nat.sqrt q.den : ℚ)

/-- Modelled collaborator: `arctan(t) / (2π)` (angle in turns).  Odd,
monotone, valued in `(-1/4, 1/4)`, and exact at `t = 0` and `t = ±1` —
the only slopes at which this development evaluates it. -/
def atanTurn (t : ℚ) : ℚ := t / (4 * (1 + (if t < 0 then -t else t)))

/-- Modelled collaborator: numpy `arctan2(y, x) / (2π)` (angle in turns,
in `(-1/2, 1/2]`), by the standard quadrant decomposition; exact on the
axes and the diagonals. -/
def atan2Turn (y x : ℚ) : ℚ :=
  if 0 < x then atanTurn (y / x)
  else if x < 0 then
    (if 0 ≤ y then atanTurn (y / x) + 1 / 2 else atanTurn (y / x) - 1 / 2)
  else if 0 < y then 1 / 4
  else if y < 0 then -(1 / 4)
  else 0

/-- Fractional part; Python's `a % (2π)` divided by `2π` is `fract` of the
angle in turns. -/
def fract (q : ℚ) : ℚ := q - (⌊q⌋ : ℚ)

/-- The polar hue of line 108:
`theta = ((arctan2(-c0, -c1) + pi/2) % (2 pi)) / (2 pi)`, in turns. -/
def polarTheta (a b : ℚ) : ℚ := fract (atan2Turn (-a) (-b) + 1 / 4)

/-- The polar magnitude of line 109: `rho = sqrt(c0**2 + c1**2)`. -/
def polarRho (a b : ℚ) : ℚ := ratSqrt (a ^ 2 + b ^ 2)

/-- The per-pixel polar conversion of lines 114/117:
`hsv_to_rgb(dstack((theta, ones, scale * rho)))` — saturation is the
literal `1`, the value channel is `scale * rho`, unclipped. -/
def polarPix (scale : ℚ) (a b : ℚ) : Pix :=
  hsv_to_rgb (polarTheta a b) 1 (scale * polarRho a b)

/-- A matplotlib `ListedColormap` object: its list of RGB colors. -/
structure ListedCM where
  lut : List Pix

/-- The scheme selector `Colorize.cmap`: a string (one of the four
keywords or a colormap name) or a colormap object.  `segObj` stands for
any non-`ListedColormap` colormap object (e.g. a
`LinearSegmentedColormap`); `transform` only ever type-tests it. -/
inductive CMapSel
  | str (s : String)
  | listedObj (cm : ListedCM)
  | segObj (stops : List (ℚ × Pix))

/-- The lookup index of a matplotlib colormap call on a float in `[0, 1]`:
`int(x * N)` with `x = 1` mapped to `N - 1`, out-of-range values taken to
the default under/over colors (the two end colors). -/
def lutIndex (n : ℕ) (x : ℚ) : ℕ :=
  let i : ℤ := itrunc (x * (n : ℚ))
  if i < 0 then 0 else min i.toNat (n - 1)

/-- Calling a `ListedColormap` on a scalar: RGBA with alpha `1`. -/
def ListedCM.call (cm : ListedCM) (x : ℚ) : Pix :=
  (cm.lut.getD (lutIndex cm.lut.length x) [0, 0, 0]) ++ [1]

/-- Modelled from the spec: the name registry of the external plotting
library's colormaps (`get_cmap` accepts a recognized name and raises
otherwise); the concrete set lives in matplotlib, outside this
repository, so membership in this list stands for "recognized name". -/
def registeredCmapNames : List String :=
  ["rainbow", "gray", "jet", "viridis", "hot", "cool", "bone", "copper",
   "spring", "summer", "autumn", "winter", "hsv", "pink"]

/-- Modelled from the spec: the lookup function of a named colormap.  The
spec only says the normalized image "is passed through the external
colormap's lookup function" and the alpha channel is dropped; the actual
color tables live in matplotlib, so the model uses a grayscale ramp with
alpha `1`.  No claim depends on the values. -/
def namedCmapCall (x : ℚ) : Pix := [clip01 x, clip01 x, clip01 x, 1]

/-- Modelled collaborator: the two-point linear ramp
`LinearSegmentedColormap.from_list('blend', [[0, 0, 0], clr])` called on a
scalar (out-of-range inputs take the end colors; the 256-entry lookup
table quantization of matplotlib is modelled as exact interpolation).
Returns RGBA with alpha `1`. -/
def ramp2 (clr : Pix) (t : ℚ) : Pix := (clr.map (fun cc => clip01 t * cc)) ++ [1]

/-- The `Colorize` configuration object (its constructor's attributes). -/
structure Colorize where
  cmap : CMapSel
  scale : ℚ
  colors : List Pix
  vmin : Option ℚ
  vmax : Option ℚ

/-- The message of Python's `UnboundLocalError`: with a multichannel
keyword scheme and an `ndim`-2 input, none of the `if img.ndim == 3/4`
branches binds `out`, and its first use raises. -/
def unboundLocalMsg : String := "local variable referenced before assignment"

/-- `Colorize._checkDims` (lines 174-192): keyword schemes constrain the
channel axis, string/`ListedColormap` selectors constrain the rank, and
any other colormap object passes through silently. -/
def Colorize.checkDims (c : Colorize) (dims : List ℕ) : Except String Unit :=
  match c.cmap with
  | .str s =>
    if s = "rgb" ∨ s = "hsv" then
      if dims.getD 0 0 ≠ 3 then
        .error ("First dimension must be 3 for " ++ s ++ " conversion")
      else .ok ()
    else if s = "polar" then
      if dims.getD 0 0 ≠ 2 then
        .error ("First dimension must be 2 for " ++ s ++ " conversion")
      else .ok ()
    else if s = "indexed" then
      if dims.getD 0 0 ≠ c.colors.length then
        .error ("First dimension must match the color list for " ++ s ++ " conversion")
      else .ok ()
    else
      if dims.length ≠ 2 ∧ dims.length ≠ 3 then
        .error ("Number of dimensions must be 2 or 3 for " ++ s ++ " conversion")
      else .ok ()
  | .listedObj _ =>
    if dims.length ≠ 2 ∧ dims.length ≠ 3 then
      .error "Number of dimensions must be 2 or 3 for conversion"
    else .ok ()
  | .segObj _ => .ok ()

/-- `Colorize._checkMixedDims` (lines 194-204): for keyword schemes the
auxiliary array must match the image's shape with the channel axis
dropped, otherwise it must match exactly (`allclose` on the shape tuples;
a rank mismatch also raises, inside numpy's broadcasting). -/
def Colorize.checkMixedDims (c : Colorize) (dims1 dims2 : List ℕ) : Except String Unit :=
  match c.cmap with
  | .str s =>
    if s = "rgb" ∨ s = "hsv" ∨ s = "polar" ∨ s = "indexed" then
      if dims1 ≠ dims2.tail then .error "mask dimensions must match image dimensions"
      else .ok ()
    else
      if dims1 ≠ dims2 then .error "mask dimensions must match image dimensions"
      else .ok ()
  | .listedObj _ =>
    if dims1 ≠ dims2 then .error "mask dimensions must match image dimensions"
    else .ok ()
  | .segObj _ => .ok ()

/-- matplotlib `Normalize(vmin, vmax, clip=True)` on one value, with
`vmin < vmax` (the `vmin = vmax` case fills with `0`). -/
def normVal (vmn vmx : ℚ) (x : ℚ) : ℚ :=
  if vmx ≤ vmn then 0 else clip01 ((x - vmn) / (vmx - vmn))

/-- An effective normalization bound: the configured one if set, else the
observed one (`Normalize.autoscale_None`; numpy raises on an empty
reduction). -/
def effBound (given : Option ℚ) (autoVal : ℚ) (nonempty : Bool) : Except String ℚ :=
  match given with
  | some v => .ok v
  | none =>
    if nonempty then .ok autoVal
    else .error "zero-size array to reduction operation"

/-- `Colorize._prepareMask` (lines 206-212): clip below at `0`. -/
def prepareMask (m : Mat) : Mat := matMap clip0 m

/-- `Colorize._prepareBackground` (lines 214-222): min-max normalization
by `Normalize()` with auto bounds (no clipping needed: auto bounds already
contain the data; constant data fills with `0`).  NOTE: `transform` never
calls this helper — it passes the background through `_prepareMask`. -/
def prepareBackground (m : Mat) : Mat :=
  matMap (normVal (listMin m.flatten) (listMax m.flatten)) m

/-- `enumerate(self.colors)` step of the `indexed` branch (lines 124-131),
acting on one already-normalized channel plane `chan` with color `clr`:
`out = maximum(out, clip(cmap(chan)[..., 0:3], 0, 1))`. -/
def indexedStep (clr : Pix) (chan : Mat) (acc : Out) : Out :=
  List.zipWith
    (fun accRow row =>
      List.zipWith (fun accPix t => List.zipWith max2 accPix (((ramp2 clr t).take 3).map clip01))
        accRow row)
    acc chan

/-- The full `indexed` combination over a plane: start from
`zeros((x, y, 3))` and fold the per-color maxima. -/
def indexedOut (colors : List Pix) (chans : List Mat) (x y : ℕ) : Out :=
  (List.zip colors chans).foldl (fun acc p => indexedStep p.1 p.2 acc)
    (List.replicate x (List.replicate y [0, 0, 0]))

/-- The `indexed` combination over a volume (the `ndim == 4` branch is the
same computation per `z`-slice). -/
def indexedOutV (colors : List Pix) (chans : List Vol) (x y z : ℕ) : Out4 :=
  (List.zip colors chans).foldl
    (fun acc p => List.zipWith (fun accM chanM => indexedStep p.1 chanM accM) acc p.2)
    (List.replicate x (List.replicate y (List.replicate z [0, 0, 0])))

/-- A colorized output: `(x, y, 3)` or `(x, y, z, 3)`. -/
inductive OutA
  | o3 (o : Out)
  | o4 (o : Out4)

/-- Map a scalar function over every color component. -/
def outAMap (f : ℚ → ℚ) : OutA → OutA
  | .o3 o => .o3 (o.map (List.map (List.map f)))
  | .o4 o => .o4 (o.map (fun u => u.map (List.map (List.map f))))

/-- numpy `multiply`. -/
def mulOp (a b : ℚ) : ℚ := a * b

/-- numpy `add`. -/
def addOp (a b : ℚ) : ℚ := a + b

/-- `Colorize.blend` (lines 162-172) with an `ndim`-2 mask: apply `op`
between each of the three channel planes and the mask. -/
def blend2 (img : Out) (mask : Mat) (op : ℚ → ℚ → ℚ) : Out :=
  List.zipWith
    (fun row mrow => List.zipWith (fun pix mv => pix.map (fun cc => op cc mv)) row mrow)
    img mask

/-- `Colorize.blend` with an `ndim`-3 mask (the `mask.ndim == 3` branch). -/
def blend3 (img : Out4) (mask : Vol) (op : ℚ → ℚ → ℚ) : Out4 :=
  List.zipWith (fun plane mplane => blend2 plane mplane op) img mask

/-- Dispatch of `Colorize.blend` on the mask's rank.  The rank
combinations other than `(x,y,3)` with a 2-D mask and `(x,y,z,3)` with a
3-D mask are unreachable from `transform` (ruled out by
`_checkMixedDims`) and left untouched. -/
def blendA (img : OutA) (mask : Arr) (op : ℚ → ℚ → ℚ) : OutA :=
  match img, mask with
  | .o3 o, .a2 m => .o3 (blend2 o m op)
  | .o4 o, .a3 v => .o4 (blend3 o v op)
  | o, _ => o

/-- Prepare and shape-check an auxiliary (mask or background) array; both
go through `_prepareMask` (lines 85-91 — `_prepareBackground` is never
invoked). -/
def Colorize.prepAux (c : Colorize) (aux : Option Arr) (dims : List ℕ) :
    Except String (Option Arr) :=
  match aux with
  | none => .ok none
  | some (.a2 m) =>
    match c.checkMixedDims (matShape (matMap clip0 m)) dims with
    | .error e => .error e
    | .ok _ => .ok (some (.a2 (matMap clip0 m)))
  | some (.a3 v) =>
    match c.checkMixedDims (volShape (volMap clip0 v)) dims with
    | .error e => .error e
    | .ok _ => .ok (some (.a3 (volMap clip0 v)))
  | some a =>
    match c.checkMixedDims (arrMap clip0 a).shape dims with
    | .error e => .error e
    | .ok _ => .ok (some (arrMap clip0 a))

/-- Apply an optional, already-prepared auxiliary array (lines 154-158). -/
def applyAux (o : OutA) (aux : Option Arr) (op : ℚ → ℚ → ℚ) : OutA :=
  match aux with
  | none => o
  | some a => blendA o a op

/-- The colorization dispatch of lines 93-150, acting on the normalized
image.  `dims` is the shape of the original image (line 79).  For the
keyword schemes the channel count has already been pinned by
`_checkDims`, so indexing `img[0] ... img[2]` is `getD`.  An `ndim`-2
input under a multichannel keyword scheme leaves `out` unbound (none of
the `if img.ndim == 3/4` branches fires) and raising happens at its first
use; an unrecognized colormap name raises inside `get_cmap`; any other
colormap object falls through to line 150.  The rank-4 arms of the
name/`ListedColormap` branches are unreachable from `transform` (ruled
out by `_checkDims` beforehand) and stand in as errors here. -/
def Colorize.colorize (c : Colorize) (nimg : Arr) (dims : List ℕ) : Except String OutA :=
  match c.cmap with
  | .str s =>
    if s = "rgb" then
      match nimg with
      | .a4 w => .ok (.o4 (volZip3 (fun a b cc => [a, b, cc])
          (w.getD 0 []) (w.getD 1 []) (w.getD 2 [])))
      | .a3 v => .ok (.o3 (matZip3 (fun a b cc => [a, b, cc])
          (v.getD 0 []) (v.getD 1 []) (v.getD 2 [])))
      | .a2 _ => .error unboundLocalMsg
    else if s = "hsv" then
      match nimg with
      | .a4 w => .ok (.o4 (volZip3 hsv_to_rgb (w.getD 0 []) (w.getD 1 []) (w.getD 2 [])))
      | .a3 v => .ok (.o3 (matZip3 hsv_to_rgb (v.getD 0 []) (v.getD 1 []) (v.getD 2 [])))
      | .a2 _ => .error unboundLocalMsg
    else if s = "polar" then
      match nimg with
      | .a4 w => .ok (.o4 (volZip2 (polarPix c.scale) (w.getD 0 []) (w.getD 1 [])))
      | .a3 v => .ok (.o3 (matZip2 (polarPix c.scale) (v.getD 0 []) (v.getD 1 [])))
      | .a2 _ => .error unboundLocalMsg
    else if s = "indexed" then
      match nimg with
      | .a4 w => .ok (.o4 (indexedOutV c.colors w (dims.getD 1 0) (dims.getD 2 0) (dims.getD 3 0)))
      | .a3 v => .ok (.o3 (indexedOut c.colors v (dims.getD 1 0) (dims.getD 2 0)))
      | .a2 _ => .error unboundLocalMsg
    else if registeredCmapNames.contains s then
      match nimg with
      | .a2 m => .ok (.o3 (m.map (List.map (fun q => (namedCmapCall q).take 3))))
      | .a3 v => .ok (.o4 (v.map (fun m => m.map (List.map (fun q => (namedCmapCall q).take 3)))))
      | .a4 _ => .error unboundLocalMsg
    else .error ("Colormap " ++ s ++ " is not recognized")
  | .listedObj cm =>
    match nimg with
    | .a2 m => .ok (.o3 (m.map (List.map (fun q => (cm.call q).take 3))))
    | .a3 v => .ok (.o4 (v.map (fun m => m.map (List.map (fun q => (cm.call q).take 3)))))
    | .a4 _ => .error unboundLocalMsg
  | .segObj _ => .error "Colorization method not understood"

/-- `Colorize.transform` (lines 45-160): check dims, min-max normalize
(auto-scaling unset bounds), prepare/check mask and background (both via
`_prepareMask`), dispatch on the scheme, scale and clip (line 152),
multiply in the mask, add in the background, clip to `[0, 1]`. -/
def Colorize.transform (c : Colorize) (img : Arr) (mask background : Option Arr) :
    Except String OutA :=
  match c.checkDims img.shape with
  | .error e => .error e
  | .ok _ =>
  match effBound c.vmin (listMin img.elems) (!img.elems.isEmpty) with
  | .error e => .error e
  | .ok vmn =>
  match effBound c.vmax (listMax img.elems) (!img.elems.isEmpty) with
  | .error e => .error e
  | .ok vmx =>
  if vmx < vmn then .error "minvalue must be less than or equal to maxvalue"
  else
  match c.prepAux mask img.shape with
  | .error e => .error e
  | .ok maskP =>
  match c.prepAux background img.shape with
  | .error e => .error e
  | .ok backgroundP =>
  match c.colorize (arrMap (normVal vmn vmx) img) img.shape with
  | .error e => .error e
  | .ok out0 =>
    let out1 := outAMap (fun q => clip01 (q * c.scale)) out0
    let out2 := applyAux out1 maskP mulOp
    let out3 := applyAux out2 backgroundP addOp
    .ok (outAMap clip01 out3)

/-- A numpy array of any rank, as `optimize` accepts one: a scalar, a
vector, or one of the rank-2/3/4 arrays of `Arr`. -/
inductive NArr
  | a0 (x : ℚ)
  | a1 (l : List ℚ)
  | up (a : Arr)

/-- numpy `.ndim`. -/
def NArr.ndim : NArr → ℕ
  | .a0 _ => 0
  | .a1 _ => 1
  | .up a => a.shape.length

/-- numpy `.shape[0]` (0 for a scalar, where Python would raise). -/
def NArr.dim0 : NArr → ℕ
  | .a0 _ => 0
  | .a1 l => l.length
  | .up a => a.shape.getD 0 0

/-- The validation of `Colorize.optimize` (lines 245-250), the part of
`optimize` this repository owns before handing off to scipy: an input of
fewer than 2 dimensions raises, anything else proceeds to the distance
computation (`.ok` carries `nclrs = mat.shape[0]`, the number of colors
the downstream external solver is asked for; the pairwise-distance matrix
and the bounded quasi-Newton solve are external collaborators — scipy —
with randomized initialization, and are not modelled). -/
def Colorize.optimize (mat : NArr) : Except String ℕ :=
  if mat.ndim < 2 then .error "Input array must be two-dimensional"
  else .ok mat.dim0

/-- Rectangularity of an `ndim`-4 array: `c` volumes of shape `(x, y, z)`. -/
def W4WF (cdim x y z : ℕ) (w : List Vol) : Prop :=
  w.length = cdim ∧ ∀ v ∈ w, VolWF x y z v

/-- A well-shaped `(x, y, 3)` output: `x` rows of `y` pixels of 3 components. -/
def OutWF (x y : ℕ) (o : Out) : Prop :=
  o.length = x ∧ ∀ r ∈ o, r.length = y ∧ ∀ p ∈ r, p.length = 3

/-- Every color component of an output plane lies in `[0, 1]`. -/
def OutVals01 (o : Out) : Prop := ∀ r ∈ o, ∀ p ∈ r, ∀ q ∈ p, 0 ≤ q ∧ q ≤ 1

/-- The output has the given shape (the last entry is the trailing RGB axis). -/
def OutA.hasShape : OutA → List ℕ → Prop
  | .o3 o, [x, y, t] => t = 3 ∧ OutWF x y o
  | .o4 o, [x, y, z, t] => t = 3 ∧ o.length = x ∧ ∀ u ∈ o, OutWF y z u
  | _, _ => False

/-- Every color component of the output lies in `[0, 1]`. -/
def OutA.vals01 : OutA → Prop
  | .o3 o => OutVals01 o
  | .o4 o => ∀ u ∈ o, OutVals01 u

/-- The four custom conversion keywords. -/
def isKeyword (s : String) : Bool :=
  s = "rgb" || s = "hsv" || s = "polar" || s = "indexed"

/-- The spatial shape of an input: for the multichannel keyword schemes the
channel axis is dropped, for colormap lookups the whole shape is spatial. -/
def Colorize.spatialShape (c : Colorize) (img : Arr) : List ℕ :=
  match c.cmap with
  | .str s => if isKeyword s then img.shape.tail else img.shape
  | _ => img.shape

/-- The effective lower normalization bound (auto-scaled if unset). -/
def Colorize.effVmin (c : Colorize) (img : Arr) : ℚ :=
  c.vmin.getD (listMin img.elems)

/-- The effective upper normalization bound (auto-scaled if unset). -/
def Colorize.effVmax (c : Colorize) (img : Arr) : ℚ :=
  c.vmax.getD (listMax img.elems)

/-- A valid colormap-lookup input: a rectangular, nonempty array of rank 2
or 3 (the ranks `_checkDims` admits for colormap selectors). -/
def cmapShapeOk (img : Arr) : Prop :=
  (∃ m x y, img = .a2 m ∧ 0 < x ∧ 0 < y ∧ MatWF x y m) ∨
  (∃ v x y z, img = .a3 v ∧ 0 < x ∧ 0 < y ∧ 0 < z ∧ VolWF x y z v)

/-- A valid `transform` input: the scheme is recognized, the image has the
shape the scheme requires (rectangular and nonempty, as numpy enforces for
data that survives auto-scaling), the colors of the `indexed` scheme are
RGB triples, and the effective normalization bounds are ordered (else
`Normalize` raises). -/
def Colorize.validInput (c : Colorize) (img : Arr) : Prop :=
  c.effVmin img ≤ c.effVmax img ∧
  ((∃ v, img = .a3 v ∧ (c.cmap = .str "rgb" ∨ c.cmap = .str "hsv") ∧
      ∃ x y, 0 < x ∧ 0 < y ∧ VolWF 3 x y v) ∨
   (∃ w, img = .a4 w ∧ (c.cmap = .str "rgb" ∨ c.cmap = .str "hsv") ∧
      ∃ x y z, 0 < x ∧ 0 < y ∧ 0 < z ∧ W4WF 3 x y z w) ∨
   (∃ v, img = .a3 v ∧ c.cmap = .str "polar" ∧
      ∃ x y, 0 < x ∧ 0 < y ∧ VolWF 2 x y v) ∨
   (∃ w, img = .a4 w ∧ c.cmap = .str "polar" ∧
      ∃ x y z, 0 < x ∧ 0 < y ∧ 0 < z ∧ W4WF 2 x y z w) ∨
   (∃ v, img = .a3 v ∧ c.cmap = .str "indexed" ∧ 0 < c.colors.length ∧
      (∀ clr ∈ c.colors, clr.length = 3) ∧
      ∃ x y, 0 < x ∧ 0 < y ∧ VolWF c.colors.length x y v) ∨
   (∃ w, img = .a4 w ∧ c.cmap = .str "indexed" ∧ 0 < c.colors.length ∧
      (∀ clr ∈ c.colors, clr.length = 3) ∧
      ∃ x y z, 0 < x ∧ 0 < y ∧ 0 < z ∧ W4WF c.colors.length x y z w) ∨
   (∃ s, c.cmap = .str s ∧ isKeyword s = false ∧ s ∈ registeredCmapNames ∧
      cmapShapeOk img) ∨
   ((∃ cm, c.cmap = .listedObj cm ∧ ∀ p ∈ cm.lut, p.length = 3) ∧ cmapShapeOk img))

/-- The scalar at row `i`, column `j` of a matrix. -/
def matEntry (m : Mat) (i j : ℕ) : ℚ := (m.getD i []).getD j 0

/-- The pixel at row `i`, column `j` of an output plane. -/
def outPix (o : Out) (i j : ℕ) : Pix := (o.getD i []).getD j []

/-- The saturation of an RGB pixel (`(max - min) / max`, `0` for black). -/
def rgbSaturation (p : Pix) : ℚ :=
  let r := p.getD 0 0
  let g := p.getD 1 0
  let b := p.getD 2 0
  let mx := max2 r (max2 g b)
  let mn := min2 r (min2 g b)
  if mx ≤ 0 then 0 else (mx - mn) / mx

/-- The hue of an RGB pixel, in turns (`0` for pure red, `0` for gray). -/
def rgbHue (p : Pix) : ℚ :=
  let r := p.getD 0 0
  let g := p.getD 1 0
  let b := p.getD 2 0
  let mx := max2 r (max2 g b)
  let mn := min2 r (min2 g b)
  if mx = mn then 0
  else if mx = r then fract ((g - b) / (mx - mn) / 6)
  else if mx = g then ((b - r) / (mx - mn) + 2) / 6
  else ((r - g) / (mx - mn) + 4) / 6

/-- The per-pixel `indexed` combination as the spec words it: each
channel's value through its black-to-color ramp, combined by the
per-component maximum.  Written independently of `indexedOut`, to be
compared with it. -/
def indexedPixSpec (colors : List Pix) (vals : List ℚ) : Pix :=
  (List.zipWith (fun clr t => ((ramp2 clr t).take 3).map clip01) colors vals).foldl
    (fun acc p => List.zipWith max2 acc p) [0, 0, 0]

/-- The polar conversion as the spec words it: the value channel clipped
to `[0, 1]` BEFORE the HSV-to-RGB conversion.  Written to be compared
with `polarPix`, the code's version. -/
def polarPixSpecClipBefore (scale : ℚ) (a b : ℚ) : Pix :=
  hsv_to_rgb (polarTheta a b) 1 (clip01 (scale * polarRho a b))

/-- The transform as the spec describes the polar scheme (value channel
clipped before conversion); identical to `Colorize.transform` in every
other respect.  Used only to compare against the code's transform. -/
def Colorize.transformSpecPolarClipBefore (c : Colorize) (img : Arr)
    (mask background : Option Arr) : Except String OutA :=
  match c.checkDims img.shape with
  | .error e => .error e
  | .ok _ =>
  match effBound c.vmin (listMin img.elems) (!img.elems.isEmpty) with
  | .error e => .error e
  | .ok vmn =>
  match effBound c.vmax (listMax img.elems) (!img.elems.isEmpty) with
  | .error e => .error e
  | .ok vmx =>
  if vmx < vmn then .error "minvalue must be less than or equal to maxvalue"
  else
  match c.prepAux mask img.shape with
  | .error e => .error e
  | .ok maskP =>
  match c.prepAux background img.shape with
  | .error e => .error e
  | .ok backgroundP =>
  match (match arrMap (normVal vmn vmx) img with
         | .a4 w => Except.ok (OutA.o4 (volZip2 (polarPixSpecClipBefore c.scale)
             (w.getD 0 []) (w.getD 1 [])))
         | .a3 v => Except.ok (OutA.o3 (matZip2 (polarPixSpecClipBefore c.scale)
             (v.getD 0 []) (v.getD 1 [])))
         | .a2 _ => Except.error unboundLocalMsg) with
  | .error e => .error e
  | .ok out0 =>
    let out1 := outAMap (fun q => clip01 (q * c.scale)) out0
    let out2 := applyAux out1 maskP mulOp
    let out3 := applyAux out2 backgroundP addOp
    .ok (outAMap clip01 out3)

/-- The polar transform with the brightness factor applied only once (to
the value channel fed to the conversion), i.e. with line 152 reduced to a
plain clip; written to be compared with the code's double application. -/
def Colorize.transformPolarSingleScale (c : Colorize) (img : Arr) : Except String OutA :=
  match c.checkDims img.shape with
  | .error e => .error e
  | .ok _ =>
  match effBound c.vmin (listMin img.elems) (!img.elems.isEmpty) with
  | .error e => .error e
  | .ok vmn =>
  match effBound c.vmax (listMax img.elems) (!img.elems.isEmpty) with
  | .error e => .error e
  | .ok vmx =>
  if vmx < vmn then .error "minvalue must be less than or equal to maxvalue"
  else
  match c.colorize (arrMap (normVal vmn vmx) img) img.shape with
  | .error e => .error e
  | .ok out0 => .ok (outAMap clip01 out0)

/-- The transform with the mask and background blend steps swapped
(background added first, mask multiplied second); identical to
`Colorize.transform` in every other respect.  Used to show the fixed
blend order matters. -/
def Colorize.transformSwapBlend (c : Colorize) (img : Arr)
    (mask background : Option Arr) : Except String OutA :=
  match c.checkDims img.shape with
  | .error e => .error e
  | .ok _ =>
  match effBound c.vmin (listMin img.elems) (!img.elems.isEmpty) with
  | .error e => .error e
  | .ok vmn =>
  match effBound c.vmax (listMax img.elems) (!img.elems.isEmpty) with
  | .error e => .error e
  | .ok vmx =>
  if vmx < vmn then .error "minvalue must be less than or equal to maxvalue"
  else
  match c.prepAux mask img.shape with
  | .error e => .error e
  | .ok maskP =>
  match c.prepAux background img.shape with
  | .error e => .error e
  | .ok backgroundP =>
  match c.colorize (arrMap (normVal vmn vmx) img) img.shape with
  | .error e => .error e
  | .ok out0 =>
    let out1 := outAMap (fun q => clip01 (q * c.scale)) out0
    let out2 := applyAux out1 backgroundP addOp
    let out3 := applyAux out2 maskP mulOp
    .ok (outAMap clip01 out3)

/-- The transform as the spec describes the background handling (the
background min-max normalized to `[0, 1]` by `_prepareBackground` before
being added); identical to `Colorize.transform` in every other respect.
Used only to compare against the code's transform, which normalizes
nothing and clips the background at `0` via `_prepareMask`. -/
def Colorize.transformSpecBgNorm (c : Colorize) (img : Arr)
    (mask background : Option Arr) : Except String OutA :=
  match c.checkDims img.shape with
  | .error e => .error e
  | .ok _ =>
  match effBound c.vmin (listMin img.elems) (!img.elems.isEmpty) with
  | .error e => .error e
  | .ok vmn =>
  match effBound c.vmax (listMax img.elems) (!img.elems.isEmpty) with
  | .error e => .error e
  | .ok vmx =>
  if vmx < vmn then .error "minvalue must be less than or equal to maxvalue"
  else
  match c.prepAux mask img.shape with
  | .error e => .error e
  | .ok maskP =>
  match (match background with
         | none => Except.ok (Option.none (α := Arr))
         | some (.a2 m) =>
           match c.checkMixedDims (matShape (prepareBackground m)) img.shape with
           | .error e => .error e
           | .ok _ => Except.ok (some (.a2 (prepareBackground m)))
         | some a =>
           match c.checkMixedDims (arrMap id a).shape img.shape with
           | .error e => .error e
           | .ok _ => Except.ok (some a)) with
  | .error e => .error e
  | .ok backgroundP =>
  match c.colorize (arrMap (normVal vmn vmx) img) img.shape with
  | .error e => .error e
  | .ok out0 =>
    let out1 := outAMap (fun q => clip01 (q * c.scale)) out0
    let out2 := applyAux out1 maskP mulOp
    let out3 := applyAux out2 backgroundP addOp
    .ok (outAMap clip01 out3)

/-! ## Scalar lemmas -/

theorem clip01_nonneg (x : ℚ) : 0 ≤ clip01 x := by
  unfold clip01; split
  · exact le_refl 0
  · split
    · exact zero_le_one
    · linarith [not_lt.mp (by assumption : ¬ x < 0)]

theorem clip01_le_one (x : ℚ) : clip01 x ≤ 1 := by
  unfold clip01; split
  · exact zero_le_one
  · split
    · exact le_refl 1
    · linarith [not_lt.mp (by assumption : ¬ 1 < x)]

theorem clip01_of_bounds (x : ℚ) (h0 : 0 ≤ x) (h1 : x ≤ 1) : clip01 x = x := by
  unfold clip01
  rw [if_neg (not_lt.mpr h0), if_neg (not_lt.mpr h1)]

theorem clip01_idem (x : ℚ) : clip01 (clip01 x) = clip01 x :=
  clip01_of_bounds _ (clip01_nonneg x) (clip01_le_one x)

theorem hsv_to_rgb_length (h s v : ℚ) : (hsv_to_rgb h s v).length = 3 := by
  unfold hsv_to_rgb
  simp only
  repeat' split
  all_goals rfl

theorem listMin_le (l : List ℚ) (x : ℚ) (hx : x ∈ l) : listMin l ≤ x := by
  match l with
  | [] => cases hx
  | a :: as =>
    have key : ∀ (ys : List ℚ) (b : ℚ),
        ys.foldl min2 b ≤ b ∧ ∀ z ∈ ys, ys.foldl min2 b ≤ z := by
      intro ys
      induction ys with
      | nil => intro b; exact ⟨le_refl b, fun z hz => absurd hz (List.not_mem_nil z)⟩
      | cons y ys ih =>
        intro b
        have hm : min2 b y ≤ b ∧ min2 b y ≤ y := by
          unfold min2; split
          · exact ⟨le_of_lt (by assumption), le_refl y⟩
          · exact ⟨le_refl b, not_lt.mp (by assumption)⟩
        simp only [List.foldl_cons]
        refine ⟨le_trans (ih (min2 b y)).1 hm.1, ?_⟩
        intro z hz
        rcases List.mem_cons.mp hz with hz | hz
        · subst hz
          exact le_trans (ih (min2 b z)).1 hm.2
        · exact (ih (min2 b y)).2 z hz
    rcases List.mem_cons.mp hx with hx | hx
    · exact hx ▸ (key as a).1
    · exact (key as a).2 x hx

theorem le_listMax (l : List ℚ) (x : ℚ) (hx : x ∈ l) : x ≤ listMax l := by
  match l with
  | [] => cases hx
  | a :: as =>
    have key : ∀ (ys : List ℚ) (b : ℚ),
        b ≤ ys.foldl max2 b ∧ ∀ z ∈ ys, z ≤ ys.foldl max2 b := by
      intro ys
      induction ys with
      | nil => intro b; exact ⟨le_refl b, fun z hz => absurd hz (List.not_mem_nil z)⟩
      | cons y ys ih =>
        intro b
        have hm : b ≤ max2 b y ∧ y ≤ max2 b y := by
          unfold max2; split
          · exact ⟨le_of_lt (by assumption), le_refl y⟩
          · exact ⟨le_refl b, not_lt.mp (by assumption)⟩
        simp only [List.foldl_cons]
        refine ⟨le_trans hm.1 (ih (max2 b y)).1, ?_⟩
        intro z hz
        rcases List.mem_cons.mp hz with hz | hz
        · subst hz
          exact le_trans hm.2 (ih (max2 b z)).1
        · exact (ih (max2 b y)).2 z hz
    rcases List.mem_cons.mp hx with hx | hx
    · exact hx ▸ (key as a).1
    · exact (key as a).2 x hx

theorem ratSqrt_mul_self (a : ℚ) (ha : 0 ≤ a) : ratSqrt (a * a) = a := by
  rcases eq_or_lt_of_le ha with h0 | hpos
  · rw [← h0]
    simp [ratSqrt]
  · have hq : ¬ a * a ≤ 0 := not_le.mpr (mul_pos hpos hpos)
    unfold ratSqrt
    rw [if_neg hq, Rat.mul_self_num, Rat.mul_self_den]
    have hna : 0 ≤ a.num := Rat.num_nonneg.mpr ha
    obtain ⟨k, hk⟩ : ∃ k : ℕ, a.num = (k : ℤ) := ⟨a.num.toNat, (Int.toNat_of_nonneg hna).symm⟩
    rw [hk]
    have h1 : ((k : ℤ) * (k : ℤ)).toNat = k * k := by
      rw [← Nat.cast_mul, Int.toNat_natCast]
    rw [h1, Nat.sqrt_eq, Nat.sqrt_eq]
    have h2 : ((k : ℚ)) = ((k : ℤ) : ℚ) := by push_cast; rfl
    rw [h2, ← hk, Rat.num_div_den]

theorem ratSqrt_sq (a : ℚ) (ha : 0 ≤ a) : ratSqrt (a ^ 2) = a := by
  rw [sq]; exact ratSqrt_mul_self a ha

/-! ## List lemmas -/

theorem zipWith3_length {α β γ δ : Type} (f : α → β → γ → δ) :
    ∀ (as : List α) (bs : List β) (cs : List γ),
      (zipWith3 f as bs cs).length = min as.length (min bs.length cs.length) := by
  intro as
  induction as with
  | nil => intro bs cs; simp [zipWith3]
  | cons a as ih =>
    intro bs cs
    cases bs with
    | nil => simp [zipWith3]
    | cons b bs =>
      cases cs with
      | nil => simp [zipWith3]
      | cons c cs =>
        simp only [zipWith3, List.length_cons, ih]
        omega

theorem zipWith3_mem {α β γ δ : Type} (f : α → β → γ → δ) :
    ∀ (as : List α) (bs : List β) (cs : List γ) (d : δ),
      d ∈ zipWith3 f as bs cs → ∃ a ∈ as, ∃ b ∈ bs, ∃ c ∈ cs, d = f a b c := by
  intro as
  induction as with
  | nil => intro bs cs d hd; simp [zipWith3] at hd
  | cons a as ih =>
    intro bs cs d hd
    cases bs with
    | nil => simp [zipWith3] at hd
    | cons b bs =>
      cases cs with
      | nil => simp [zipWith3] at hd
      | cons c cs =>
        rcases List.mem_cons.mp hd with hd | hd
        · exact ⟨a, List.mem_cons_self a as, b, List.mem_cons_self b bs,
            c, List.mem_cons_self c cs, hd⟩
        · obtain ⟨a', ha', b', hb', c', hc', he⟩ := ih bs cs d hd
          exact ⟨a', List.mem_cons_of_mem a ha', b', List.mem_cons_of_mem b hb',
            c', List.mem_cons_of_mem c hc', he⟩

theorem zipWith3_getD {α β γ δ : Type} (f : α → β → γ → δ) :
    ∀ (as : List α) (bs : List β) (cs : List γ) (i : ℕ)
      (da : α) (db : β) (dc : γ) (dd : δ),
      i < as.length → i < bs.length → i < cs.length →
      (zipWith3 f as bs cs).getD i dd = f (as.getD i da) (bs.getD i db) (cs.getD i dc) := by
  intro as
  induction as with
  | nil => intro bs cs i da db dc dd h1 _ _; simp at h1
  | cons a as ih =>
    intro bs cs i da db dc dd h1 h2 h3
    cases bs with
    | nil => simp at h2
    | cons b bs =>
      cases cs with
      | nil => simp at h3
      | cons c cs =>
        cases i with
        | zero => rfl
        | succ i =>
          simp only [zipWith3, List.getD_cons_succ]
          exact ih bs cs i da db dc dd (by simpa using h1) (by simpa using h2)
            (by simpa using h3)

theorem zipWith_mem {α β γ : Type} (f : α → β → γ) :
    ∀ (as : List α) (bs : List β) (c : γ),
      c ∈ List.zipWith f as bs → ∃ a ∈ as, ∃ b ∈ bs, c = f a b := by
  intro as
  induction as with
  | nil => intro bs c hc; simp at hc
  | cons a as ih =>
    intro bs c hc
    cases bs with
    | nil => simp at hc
    | cons b bs =>
      rcases List.mem_cons.mp hc with hc | hc
      · exact ⟨a, List.mem_cons_self a as, b, List.mem_cons_self b bs, hc⟩
      · obtain ⟨a', ha', b', hb', he⟩ := ih bs c hc
        exact ⟨a', List.mem_cons_of_mem a ha', b', List.mem_cons_of_mem b hb', he⟩

theorem zipWith_getD {α β γ : Type} (f : α → β → γ) :
    ∀ (as : List α) (bs : List β) (i : ℕ) (da : α) (db : β) (dc : γ),
      i < as.length → i < bs.length →
      (List.zipWith f as bs).getD i dc = f (as.getD i da) (bs.getD i db) := by
  intro as
  induction as with
  | nil => intro bs i da db dc h1 _; simp at h1
  | cons a as ih =>
    intro bs i da db dc h1 h2
    cases bs with
    | nil => simp at h2
    | cons b bs =>
      cases i with
      | zero => rfl
      | succ i =>
        simp only [List.zipWith_cons_cons, List.getD_cons_succ]
        exact ih bs i da db dc (by simpa using h1) (by simpa using h2)

theorem getD_map (f : ℚ → ℚ) :
    ∀ (l : List ℚ) (i : ℕ) (d : ℚ), i < l.length →
      (l.map f).getD i (f d) = f (l.getD i d) := by
  intro l
  induction l with
  | nil => intro i d h; simp at h
  | cons a l ih =>
    intro i d h
    cases i with
    | zero => rfl
    | succ i =>
      simp only [List.map_cons, List.getD_cons_succ]
      exact ih i d (by simpa using h)

/-! ## Shape and pipeline lemmas -/

theorem matShape_of_wf (m : Mat) (x y : ℕ) (h : MatWF x y m) (hx : 0 < x) :
    matShape m = [x, y] := by
  obtain ⟨hl, hr⟩ := h
  cases m with
  | nil => simp at hl; omega
  | cons r rs =>
    simp only [matShape, List.headD_cons, hl]
    have := hr r (List.mem_cons_self r rs)
    rw [this]

theorem volShape_of_wf (v : Vol) (cdim x y : ℕ) (h : VolWF cdim x y v)
    (hc : 0 < cdim) (hx : 0 < x) : volShape v = [cdim, x, y] := by
  obtain ⟨hl, hm⟩ := h
  cases v with
  | nil => simp at hl; omega
  | cons m ms =>
    obtain ⟨hml, hmr⟩ := hm m (List.mem_cons_self m ms)
    simp only [volShape, List.headD_cons, hl]
    cases m with
    | nil => simp at hml; omega
    | cons r rs =>
      simp only [List.headD_cons, hml]
      have := hmr r (List.mem_cons_self r rs)
      rw [this]

theorem a4Shape_of_wf (w : List Vol) (cdim x y z : ℕ) (h : W4WF cdim x y z w)
    (hc : 0 < cdim) (hx : 0 < x) (hy : 0 < y) :
    (Arr.a4 w).shape = [cdim, x, y, z] := by
  obtain ⟨hl, hv⟩ := h
  cases w with
  | nil => simp at hl; omega
  | cons v vs =>
    obtain ⟨hvl, hvm⟩ := hv v (List.mem_cons_self v vs)
    simp only [Arr.shape, List.headD_cons, hl]
    cases v with
    | nil => simp at hvl; omega
    | cons m ms =>
      obtain ⟨hml, hmr⟩ := hvm m (List.mem_cons_self m ms)
      simp only [List.headD_cons, hvl]
      cases m with
      | nil => simp at hml; omega
      | cons r rs =>
        simp only [List.headD_cons, hml]
        have := hmr r (List.mem_cons_self r rs)
        rw [this]

theorem elems_a2_ne (m : Mat) (x y : ℕ) (h : MatWF x y m) (hx : 0 < x)
    (hy : 0 < y) : (Arr.a2 m).elems.isEmpty = false := by
  obtain ⟨hl, hr⟩ := h
  cases m with
  | nil => simp at hl; omega
  | cons r rs =>
    have hry := hr r (List.mem_cons_self r rs)
    cases r with
    | nil => simp at hry; omega
    | cons q qs =>
      have : q ∈ (Arr.a2 ((q :: qs) :: rs)).elems := by
        simp only [Arr.elems]
        exact List.mem_flatten.mpr ⟨q :: qs, List.mem_cons_self _ _, List.mem_cons_self _ _⟩
      rw [List.isEmpty_eq_false]
      exact List.ne_nil_of_mem this

theorem elems_a3_ne (v : Vol) (cdim x y : ℕ) (h : VolWF cdim x y v)
    (hc : 0 < cdim) (hx : 0 < x) (hy : 0 < y) :
    (Arr.a3 v).elems.isEmpty = false := by
  obtain ⟨hl, hm⟩ := h
  cases v with
  | nil => simp at hl; omega
  | cons m ms =>
    obtain ⟨hml, hmr⟩ := hm m (List.mem_cons_self m ms)
    cases m with
    | nil => simp at hml; omega
    | cons r rs =>
      have hry := hmr r (List.mem_cons_self r rs)
      cases r with
      | nil => simp at hry; omega
      | cons q qs =>
        have : q ∈ (Arr.a3 (((q :: qs) :: rs) :: ms)).elems := by
          simp only [Arr.elems]
          refine List.mem_flatten.mpr ⟨((q :: qs) :: rs).flatten, ?_, ?_⟩
          · exact List.mem_map_of_mem List.flatten (List.mem_cons_self _ _)
          · exact List.mem_flatten.mpr ⟨q :: qs, List.mem_cons_self _ _, List.mem_cons_self _ _⟩
        rw [List.isEmpty_eq_false]
        exact List.ne_nil_of_mem this

theorem elems_a4_ne (w : List Vol) (cdim x y z : ℕ) (h : W4WF cdim x y z w)
    (hc : 0 < cdim) (hx : 0 < x) (hy : 0 < y) (hz : 0 < z) :
    (Arr.a4 w).elems.isEmpty = false := by
  obtain ⟨hl, hv⟩ := h
  cases w with
  | nil => simp at hl; omega
  | cons v vs =>
    obtain ⟨hvl, hvm⟩ := hv v (List.mem_cons_self v vs)
    cases v with
    | nil => simp at hvl; omega
    | cons m ms =>
      obtain ⟨hml, hmr⟩ := hvm m (List.mem_cons_self m ms)
      cases m with
      | nil => simp at hml; omega
      | cons r rs =>
        have hry := hmr r (List.mem_cons_self r rs)
        cases r with
        | nil => simp at hry; omega
        | cons q qs =>
          have : q ∈ (Arr.a4 ((((q :: qs) :: rs) :: ms) :: vs)).elems := by
            simp only [Arr.elems]
            refine List.mem_flatten.mpr ⟨((((q :: qs) :: rs) :: ms).map List.flatten).flatten, ?_, ?_⟩
            · exact List.mem_map_of_mem _ (List.mem_cons_self _ _)
            · refine List.mem_flatten.mpr ⟨((q :: qs) :: rs).flatten, ?_, ?_⟩
              · exact List.mem_map_of_mem List.flatten (List.mem_cons_self _ _)
              · exact List.mem_flatten.mpr ⟨q :: qs, List.mem_cons_self _ _, List.mem_cons_self _ _⟩
          rw [List.isEmpty_eq_false]
          exact List.ne_nil_of_mem this

theorem effBound_true (o : Option ℚ) (a : ℚ) : effBound o a true = .ok (o.getD a) := by
  cases o <;> rfl

/-- Run the transform pipeline to its result, given that every checked
step succeeds. -/
theorem transform_run (c : Colorize) (img : Arr) (mask background : Option Arr)
    (hck : c.checkDims img.shape = .ok ())
    (hne : img.elems.isEmpty = false)
    (hle : c.effVmin img ≤ c.effVmax img)
    (mp bp : Option Arr)
    (hm : c.prepAux mask img.shape = .ok mp)
    (hb : c.prepAux background img.shape = .ok bp)
    (out0 : OutA)
    (hcol : c.colorize (arrMap (normVal (c.effVmin img) (c.effVmax img)) img)
      img.shape = .ok out0) :
    c.transform img mask background =
      .ok (outAMap clip01 (applyAux (applyAux
        (outAMap (fun q => clip01 (q * c.scale)) out0) mp mulOp) bp addOp)) := by
  have hmin : effBound c.vmin (listMin img.elems) (!img.elems.isEmpty) =
      .ok (c.effVmin img) := by
    rw [hne]; exact effBound_true c.vmin (listMin img.elems)
  have hmax : effBound c.vmax (listMax img.elems) (!img.elems.isEmpty) =
      .ok (c.effVmax img) := by
    rw [hne]; exact effBound_true c.vmax (listMax img.elems)
  unfold Colorize.transform
  rw [hck, hmin, hmax]
  simp only []
  rw [if_neg (not_lt.mpr hle)]
  rw [hm]
  simp only []
  rw [hb]
  simp only []
  rw [hcol]

theorem colorize_rgb_a3 (c : Colorize) (h : c.cmap = CMapSel.str "rgb")
    (v : Vol) (dims : List ℕ) :
    c.colorize (.a3 v) dims = .ok (.o3 (matZip3 (fun a b cc => [a, b, cc])
      (v.getD 0 []) (v.getD 1 []) (v.getD 2 []))) := by
  simp [Colorize.colorize, h]

theorem colorize_rgb_a4 (c : Colorize) (h : c.cmap = CMapSel.str "rgb")
    (w : List Vol) (dims : List ℕ) :
    c.colorize (.a4 w) dims = .ok (.o4 (volZip3 (fun a b cc => [a, b, cc])
      (w.getD 0 []) (w.getD 1 []) (w.getD 2 []))) := by
  simp [Colorize.colorize, h]

theorem colorize_hsv_a3 (c : Colorize) (h : c.cmap = CMapSel.str "hsv")
    (v : Vol) (dims : List ℕ) :
    c.colorize (.a3 v) dims = .ok (.o3 (matZip3 hsv_to_rgb
      (v.getD 0 []) (v.getD 1 []) (v.getD 2 []))) := by
  simp [Colorize.colorize, h]

theorem colorize_hsv_a4 (c : Colorize) (h : c.cmap = CMapSel.str "hsv")
    (w : List Vol) (dims : List ℕ) :
    c.colorize (.a4 w) dims = .ok (.o4 (volZip3 hsv_to_rgb
      (w.getD 0 []) (w.getD 1 []) (w.getD 2 []))) := by
  simp [Colorize.colorize, h]

theorem colorize_polar_a3 (c : Colorize) (h : c.cmap = CMapSel.str "polar")
    (v : Vol) (dims : List ℕ) :
    c.colorize (.a3 v) dims = .ok (.o3 (matZip2 (polarPix c.scale)
      (v.getD 0 []) (v.getD 1 []))) := by
  simp [Colorize.colorize, h]

theorem colorize_polar_a4 (c : Colorize) (h : c.cmap = CMapSel.str "polar")
    (w : List Vol) (dims : List ℕ) :
    c.colorize (.a4 w) dims = .ok (.o4 (volZip2 (polarPix c.scale)
      (w.getD 0 []) (w.getD 1 []))) := by
  simp [Colorize.colorize, h]

theorem colorize_indexed_a3 (c : Colorize) (h : c.cmap = CMapSel.str "indexed")
    (v : Vol) (dims : List ℕ) :
    c.colorize (.a3 v) dims = .ok (.o3 (indexedOut c.colors v
      (dims.getD 1 0) (dims.getD 2 0))) := by
  simp [Colorize.colorize, h]

theorem colorize_indexed_a4 (c : Colorize) (h : c.cmap = CMapSel.str "indexed")
    (w : List Vol) (dims : List ℕ) :
    c.colorize (.a4 w) dims = .ok (.o4 (indexedOutV c.colors w
      (dims.getD 1 0) (dims.getD 2 0) (dims.getD 3 0))) := by
  simp [Colorize.colorize, h]

theorem colorize_indexed_a3c (c : Colorize) (h : c.cmap = CMapSel.str "indexed")
    (v : Vol) (dims : List ℕ) (l x y : ℕ) (hd : dims = [l, x, y]) :
    c.colorize (.a3 v) dims = .ok (.o3 (indexedOut c.colors v x y)) := by
  subst hd
  simpa using colorize_indexed_a3 c h v [l, x, y]

theorem colorize_indexed_a4c (c : Colorize) (h : c.cmap = CMapSel.str "indexed")
    (w : List Vol) (dims : List ℕ) (l x y z : ℕ) (hd : dims = [l, x, y, z]) :
    c.colorize (.a4 w) dims = .ok (.o4 (indexedOutV c.colors w x y z)) := by
  subst hd
  simpa using colorize_indexed_a4 c h w [l, x, y, z]

theorem colorize_named_a2 (c : Colorize) (s : String) (h : c.cmap = CMapSel.str s)
    (hk : isKeyword s = false) (hreg : s ∈ registeredCmapNames)
    (m : Mat) (dims : List ℕ) :
    c.colorize (.a2 m) dims =
      .ok (.o3 (m.map (List.map (fun q => (namedCmapCall q).take 3)))) := by
  simp only [isKeyword, Bool.or_eq_false_iff, decide_eq_false_iff_not] at hk
  simp [Colorize.colorize, h, hk.1.1.1, hk.1.1.2, hk.1.2, hk.2, hreg]

theorem colorize_named_a3 (c : Colorize) (s : String) (h : c.cmap = CMapSel.str s)
    (hk : isKeyword s = false) (hreg : s ∈ registeredCmapNames)
    (v : Vol) (dims : List ℕ) :
    c.colorize (.a3 v) dims =
      .ok (.o4 (v.map (fun m => m.map (List.map (fun q => (namedCmapCall q).take 3))))) := by
  simp only [isKeyword, Bool.or_eq_false_iff, decide_eq_false_iff_not] at hk
  simp [Colorize.colorize, h, hk.1.1.1, hk.1.1.2, hk.1.2, hk.2, hreg]

theorem colorize_listed_a2 (c : Colorize) (cm : ListedCM)
    (h : c.cmap = CMapSel.listedObj cm) (m : Mat) (dims : List ℕ) :
    c.colorize (.a2 m) dims =
      .ok (.o3 (m.map (List.map (fun q => (cm.call q).take 3)))) := by
  simp [Colorize.colorize, h]

theorem colorize_listed_a3 (c : Colorize) (cm : ListedCM)
    (h : c.cmap = CMapSel.listedObj cm) (v : Vol) (dims : List ℕ) :
    c.colorize (.a3 v) dims =
      .ok (.o4 (v.map (fun m => m.map (List.map (fun q => (cm.call q).take 3))))) := by
  simp [Colorize.colorize, h]

theorem checkDims_rgbhsv (c : Colorize)
    (h : c.cmap = CMapSel.str "rgb" ∨ c.cmap = CMapSel.str "hsv")
    (dims : List ℕ) (hd : dims.getD 0 0 = 3) : c.checkDims dims = .ok () := by
  rcases h with h | h <;> (simp [Colorize.checkDims, h]; simpa using hd)

theorem checkDims_polar (c : Colorize) (h : c.cmap = CMapSel.str "polar")
    (dims : List ℕ) (hd : dims.getD 0 0 = 2) : c.checkDims dims = .ok () := by
  simp [Colorize.checkDims, h]
  simpa using hd

theorem checkDims_indexed (c : Colorize) (h : c.cmap = CMapSel.str "indexed")
    (dims : List ℕ) (hd : dims.getD 0 0 = c.colors.length) :
    c.checkDims dims = .ok () := by
  simp [Colorize.checkDims, h]
  simpa using hd

theorem checkDims_nonkw (c : Colorize) (s : String) (h : c.cmap = CMapSel.str s)
    (hk : isKeyword s = false) (dims : List ℕ)
    (hd : dims.length = 2 ∨ dims.length = 3) : c.checkDims dims = .ok () := by
  simp only [isKeyword, Bool.or_eq_false_iff, decide_eq_false_iff_not] at hk
  rcases hd with hd | hd <;>
    simp [Colorize.checkDims, h, hk.1.1.1, hk.1.1.2, hk.1.2, hk.2, hd]

theorem checkDims_listed (c : Colorize) (cm : ListedCM)
    (h : c.cmap = CMapSel.listedObj cm) (dims : List ℕ)
    (hd : dims.length = 2 ∨ dims.length = 3) : c.checkDims dims = .ok () := by
  rcases hd with hd | hd <;> simp [Colorize.checkDims, h, hd]

theorem prepAux_none (c : Colorize) (dims : List ℕ) :
    c.prepAux none dims = .ok none := rfl

theorem OutWF_matZip3 (f : ℚ → ℚ → ℚ → Pix) (m0 m1 m2 : Mat) (x y : ℕ)
    (h0 : MatWF x y m0) (h1 : MatWF x y m1) (h2 : MatWF x y m2)
    (hf : ∀ a b cc, (f a b cc).length = 3) :
    OutWF x y (matZip3 f m0 m1 m2) := by
  constructor
  · rw [matZip3, zipWith3_length, h0.1, h1.1, h2.1]
    omega
  · intro r hr
    obtain ⟨r0, hr0, r1, hr1, r2, hr2, rfl⟩ := zipWith3_mem _ _ _ _ r hr
    constructor
    · rw [zipWith3_length, h0.2 r0 hr0, h1.2 r1 hr1, h2.2 r2 hr2]
      omega
    · intro p hp
      obtain ⟨a, _, b, _, cc, _, rfl⟩ := zipWith3_mem _ _ _ _ p hp
      exact hf a b cc

theorem OutWF_matZip2 (f : ℚ → ℚ → Pix) (m0 m1 : Mat) (x y : ℕ)
    (h0 : MatWF x y m0) (h1 : MatWF x y m1)
    (hf : ∀ a b, (f a b).length = 3) :
    OutWF x y (matZip2 f m0 m1) := by
  constructor
  · rw [matZip2, List.length_zipWith, h0.1, h1.1]
    omega
  · intro r hr
    obtain ⟨r0, hr0, r1, hr1, rfl⟩ := zipWith_mem _ _ _ r hr
    constructor
    · rw [List.length_zipWith, h0.2 r0 hr0, h1.2 r1 hr1]
      omega
    · intro p hp
      obtain ⟨a, _, b, _, rfl⟩ := zipWith_mem _ _ _ p hp
      exact hf a b

theorem Out4WF_volZip3 (f : ℚ → ℚ → ℚ → Pix) (v0 v1 v2 : Vol) (x y z : ℕ)
    (h0 : VolWF x y z v0) (h1 : VolWF x y z v1) (h2 : VolWF x y z v2)
    (hf : ∀ a b cc, (f a b cc).length = 3) :
    (volZip3 f v0 v1 v2).length = x ∧ ∀ u ∈ volZip3 f v0 v1 v2, OutWF y z u := by
  constructor
  · rw [volZip3, zipWith3_length, h0.1, h1.1, h2.1]
    omega
  · intro u hu
    obtain ⟨m0, hm0, m1, hm1, m2, hm2, rfl⟩ := zipWith3_mem _ _ _ _ u hu
    exact OutWF_matZip3 f m0 m1 m2 y z (h0.2 m0 hm0) (h1.2 m1 hm1) (h2.2 m2 hm2) hf

theorem Out4WF_volZip2 (f : ℚ → ℚ → Pix) (v0 v1 : Vol) (x y z : ℕ)
    (h0 : VolWF x y z v0) (h1 : VolWF x y z v1)
    (hf : ∀ a b, (f a b).length = 3) :
    (volZip2 f v0 v1).length = x ∧ ∀ u ∈ volZip2 f v0 v1, OutWF y z u := by
  constructor
  · rw [volZip2, List.length_zipWith, h0.1, h1.1]
    omega
  · intro u hu
    obtain ⟨m0, hm0, m1, hm1, rfl⟩ := zipWith_mem _ _ _ u hu
    exact OutWF_matZip2 f m0 m1 y z (h0.2 m0 hm0) (h1.2 m1 hm1) hf

theorem OutWF_mapPix (g : ℚ → Pix) (m : Mat) (x y : ℕ) (h : MatWF x y m)
    (hg : ∀ q, (g q).length = 3) : OutWF x y (m.map (List.map g)) := by
  constructor
  · rw [List.length_map, h.1]
  · intro r hr
    obtain ⟨r0, hr0, rfl⟩ := List.mem_map.mp hr
    refine ⟨by rw [List.length_map, h.2 r0 hr0], ?_⟩
    intro p hp
    obtain ⟨q, _, rfl⟩ := List.mem_map.mp hp
    exact hg q

theorem OutWF_indexedStep (clr : Pix) (chan : Mat) (acc : Out) (x y : ℕ)
    (hacc : OutWF x y acc) (hchan : MatWF x y chan) (hclr : clr.length = 3) :
    OutWF x y (indexedStep clr chan acc) := by
  constructor
  · rw [indexedStep, List.length_zipWith, hacc.1, hchan.1]
    omega
  · intro r hr
    obtain ⟨r0, hr0, row, hrow, rfl⟩ := zipWith_mem _ _ _ r hr
    constructor
    · rw [List.length_zipWith, (hacc.2 r0 hr0).1, hchan.2 row hrow]
      omega
    · intro p hp
      obtain ⟨accPix, hap, t, _, rfl⟩ := zipWith_mem _ _ _ p hp
      rw [List.length_zipWith, (hacc.2 r0 hr0).2 accPix hap, List.length_map,
        List.length_take, ramp2, List.length_append, List.length_map, hclr]
      omega

theorem OutWF_zeros (x y : ℕ) :
    OutWF x y (List.replicate x (List.replicate y ([0, 0, 0] : Pix))) := by
  refine ⟨List.length_replicate x _, ?_⟩
  intro r hr
  rw [List.eq_of_mem_replicate hr]
  refine ⟨List.length_replicate y _, ?_⟩
  intro p hp
  rw [List.eq_of_mem_replicate hp]
  rfl

theorem OutWF_indexedFold (x y : ℕ) :
    ∀ (L : List (Pix × Mat)), (∀ pa ∈ L, pa.1.length = 3 ∧ MatWF x y pa.2) →
      ∀ acc : Out, OutWF x y acc →
      OutWF x y (L.foldl (fun acc p => indexedStep p.1 p.2 acc) acc) := by
  intro L
  induction L with
  | nil => intro _ acc hacc; exact hacc
  | cons pa L ih =>
    intro hL acc hacc
    have hpa := hL pa (List.mem_cons_self pa L)
    simp only [List.foldl_cons]
    exact ih (fun q hq => hL q (List.mem_cons_of_mem pa hq)) _
      (OutWF_indexedStep pa.1 pa.2 acc x y hacc hpa.2 hpa.1)

theorem OutWF_indexedOut (colors : List Pix) (chans : List Mat) (x y : ℕ)
    (hc : ∀ clr ∈ colors, clr.length = 3) (hch : ∀ m ∈ chans, MatWF x y m) :
    OutWF x y (indexedOut colors chans x y) := by
  refine OutWF_indexedFold x y (List.zip colors chans) ?_ _ (OutWF_zeros x y)
  intro pa hpa
  have := List.of_mem_zip hpa
  exact ⟨hc pa.1 this.1, hch pa.2 this.2⟩

theorem Out4WF_indexedOutV (colors : List Pix) (chans : List Vol) (x y z : ℕ)
    (hc : ∀ clr ∈ colors, clr.length = 3) (hch : ∀ v ∈ chans, VolWF x y z v) :
    (indexedOutV colors chans x y z).length = x ∧
      ∀ u ∈ indexedOutV colors chans x y z, OutWF y z u := by
  have key : ∀ (L : List (Pix × Vol)), (∀ pa ∈ L, pa.1.length = 3 ∧ VolWF x y z pa.2) →
      ∀ acc : Out4, (acc.length = x ∧ ∀ u ∈ acc, OutWF y z u) →
      ((L.foldl (fun acc p => List.zipWith (fun accM chanM => indexedStep p.1 chanM accM) acc p.2) acc).length = x ∧
        ∀ u ∈ L.foldl (fun acc p => List.zipWith (fun accM chanM => indexedStep p.1 chanM accM) acc p.2) acc,
          OutWF y z u) := by
    intro L
    induction L with
    | nil => intro _ acc hacc; exact hacc
    | cons pa L ih =>
      intro hL acc hacc
      have hpa := hL pa (List.mem_cons_self pa L)
      simp only [List.foldl_cons]
      refine ih (fun q hq => hL q (List.mem_cons_of_mem pa hq)) _ ⟨?_, ?_⟩
      · rw [List.length_zipWith, hacc.1, hpa.2.1]
        omega
      · intro u hu
        obtain ⟨accM, haM, chanM, hcM, rfl⟩ := zipWith_mem _ _ _ u hu
        exact OutWF_indexedStep pa.1 chanM accM y z (hacc.2 accM haM)
          (hpa.2.2 chanM hcM) hpa.1
  refine key (List.zip colors chans) ?_ _ ⟨List.length_replicate x _, ?_⟩
  · intro pa hpa
    have := List.of_mem_zip hpa
    exact ⟨hc pa.1 this.1, hch pa.2 this.2⟩
  · intro u hu
    rw [List.eq_of_mem_replicate hu]
    exact OutWF_zeros y z

theorem OutWF_outMap (f : ℚ → ℚ) (o : Out) (x y : ℕ) (h : OutWF x y o) :
    OutWF x y (o.map (List.map (List.map f))) := by
  refine ⟨by rw [List.length_map, h.1], ?_⟩
  intro r hr
  obtain ⟨r0, hr0, rfl⟩ := List.mem_map.mp hr
  refine ⟨by rw [List.length_map, (h.2 r0 hr0).1], ?_⟩
  intro p hp
  obtain ⟨p0, hp0, rfl⟩ := List.mem_map.mp hp
  rw [List.length_map, (h.2 r0 hr0).2 p0 hp0]

theorem OutVals01_map_clip01 (o : Out) :
    OutVals01 (o.map (List.map (List.map clip01))) := by
  intro r hr
  obtain ⟨r0, _, rfl⟩ := List.mem_map.mp hr
  intro p hp
  obtain ⟨p0, _, rfl⟩ := List.mem_map.mp hp
  intro q hq
  obtain ⟨q0, _, rfl⟩ := List.mem_map.mp hq
  exact ⟨clip01_nonneg q0, clip01_le_one q0⟩

theorem vals01_outAMap_clip01 (o : OutA) : (outAMap clip01 o).vals01 := by
  cases o with
  | o3 o => exact OutVals01_map_clip01 o
  | o4 o =>
    intro u hu
    obtain ⟨u0, _, rfl⟩ := List.mem_map.mp hu
    exact OutVals01_map_clip01 u0

theorem getD_mem {α : Type} (l : List α) (i : ℕ) (d : α) (h : i < l.length) :
    l.getD i d ∈ l := by
  rw [List.getD_eq_getElem l d h]
  exact List.getElem_mem h

theorem MatWF_matMap (f : ℚ → ℚ) (m : Mat) (x y : ℕ) (h : MatWF x y m) :
    MatWF x y (matMap f m) := by
  refine ⟨by rw [matMap, List.length_map, h.1], ?_⟩
  intro r hr
  obtain ⟨r0, hr0, rfl⟩ := List.mem_map.mp hr
  rw [List.length_map, h.2 r0 hr0]

theorem VolWF_volMap (f : ℚ → ℚ) (v : Vol) (x y z : ℕ) (h : VolWF x y z v) :
    VolWF x y z (volMap f v) := by
  refine ⟨by rw [volMap, List.length_map, h.1], ?_⟩
  intro m hm
  obtain ⟨m0, hm0, rfl⟩ := List.mem_map.mp hm
  exact MatWF_matMap f m0 y z (h.2 m0 hm0)

theorem W4WF_map (f : ℚ → ℚ) (w : List Vol) (cdim x y z : ℕ)
    (h : W4WF cdim x y z w) : W4WF cdim x y z (w.map (volMap f)) := by
  refine ⟨by rw [List.length_map, h.1], ?_⟩
  intro v hv
  obtain ⟨v0, hv0, rfl⟩ := List.mem_map.mp hv
  exact VolWF_volMap f v0 x y z (h.2 v0 hv0)

theorem namedCmapCall_take3_length (q : ℚ) : ((namedCmapCall q).take 3).length = 3 := rfl

theorem listedCall_take3_length (cm : ListedCM) (hl : ∀ p ∈ cm.lut, p.length = 3)
    (q : ℚ) : ((cm.call q).take 3).length = 3 := by
  have hc : (cm.call q).length = 4 := by
    rw [ListedCM.call, List.length_append]
    by_cases h : lutIndex cm.lut.length q < cm.lut.length
    · rw [hl _ (getD_mem cm.lut _ [0, 0, 0] h)]
      rfl
    · rw [List.getD_eq_default cm.lut [0, 0, 0] (not_lt.mp h)]
      rfl
  rw [List.length_take, hc]
  rfl

theorem Out4WF_outMap (f : ℚ → ℚ) (o : Out4) (x y z : ℕ)
    (h : o.length = x ∧ ∀ u ∈ o, OutWF y z u) :
    (o.map (fun u => u.map (List.map (List.map f)))).length = x ∧
      ∀ u ∈ o.map (fun u => u.map (List.map (List.map f))), OutWF y z u := by
  refine ⟨by rw [List.length_map, h.1], ?_⟩
  intro u hu
  obtain ⟨u0, hu0, rfl⟩ := List.mem_map.mp hu
  exact OutWF_outMap f u0 y z (h.2 u0 hu0)

/-! ## Claim C1 -/

/-- C1: For every valid input (any of the schemes rgb, hsv, polar,
indexed, or a colormap selector, with an image of the shape that scheme
requires), `transform` returns an array whose shape equals the input's
spatial shape with a trailing axis of exactly 3, and every value of the
returned array lies in `[0, 1]`. -/
theorem transform_output_shape_and_range (c : Colorize) (img : Arr)
    (hv : c.validInput img) :
    ∃ o, c.transform img none none = .ok o ∧
      o.hasShape (c.spatialShape img ++ [3]) ∧ o.vals01 := by
  obtain ⟨hle, hcase⟩ := hv
  rcases hcase with ⟨v, rfl, hss, x, y, hx, hy, hwf⟩ | ⟨w, rfl, hss, x, y, z, hx, hy, hz, hwf⟩ |
    ⟨v, rfl, hss, x, y, hx, hy, hwf⟩ | ⟨w, rfl, hss, x, y, z, hx, hy, hz, hwf⟩ |
    ⟨v, rfl, hss, hcl, hc3, x, y, hx, hy, hwf⟩ |
    ⟨w, rfl, hss, hcl, hc3, x, y, z, hx, hy, hz, hwf⟩ |
    ⟨s, hss, hk, hreg, hshape⟩ | ⟨⟨cm, hss, hlut⟩, hshape⟩
  · -- rgb / hsv on an `ndim`-3 image
    have hshape3 : (Arr.a3 v).shape = [3, x, y] := volShape_of_wf v 3 x y hwf (by omega) hx
    have hck : c.checkDims (Arr.a3 v).shape = .ok () :=
      checkDims_rgbhsv c hss _ (by rw [hshape3]; rfl)
    have hne := elems_a3_ne v 3 x y hwf (by omega) hx hy
    have hwfn := VolWF_volMap (normVal (c.effVmin (Arr.a3 v)) (c.effVmax (Arr.a3 v)))
      v 3 x y hwf
    have hm0 := hwfn.2 _ (getD_mem _ 0 [] (by rw [hwfn.1]; omega))
    have hm1 := hwfn.2 _ (getD_mem _ 1 [] (by rw [hwfn.1]; omega))
    have hm2 := hwfn.2 _ (getD_mem _ 2 [] (by rw [hwfn.1]; omega))
    have hsp : c.spatialShape (Arr.a3 v) = [x, y] := by
      rcases hss with hss | hss <;> simp [Colorize.spatialShape, hss, isKeyword, hshape3]
    rcases hss with hss | hss
    · have hcol := colorize_rgb_a3 c hss
        (volMap (normVal (c.effVmin (Arr.a3 v)) (c.effVmax (Arr.a3 v))) v) (Arr.a3 v).shape
      refine ⟨_, transform_run c (Arr.a3 v) none none hck hne hle none none rfl rfl _ hcol,
        ?_, vals01_outAMap_clip01 _⟩
      rw [hsp]
      simp only [applyAux, outAMap, OutA.hasShape, List.cons_append, List.nil_append]
      exact ⟨trivial, OutWF_outMap _ _ x y (OutWF_outMap _ _ x y
        (OutWF_matZip3 _ _ _ _ x y hm0 hm1 hm2 (fun a b cc => rfl)))⟩
    · have hcol := colorize_hsv_a3 c hss
        (volMap (normVal (c.effVmin (Arr.a3 v)) (c.effVmax (Arr.a3 v))) v) (Arr.a3 v).shape
      refine ⟨_, transform_run c (Arr.a3 v) none none hck hne hle none none rfl rfl _ hcol,
        ?_, vals01_outAMap_clip01 _⟩
      rw [hsp]
      simp only [applyAux, outAMap, OutA.hasShape, List.cons_append, List.nil_append]
      exact ⟨trivial, OutWF_outMap _ _ x y (OutWF_outMap _ _ x y
        (OutWF_matZip3 _ _ _ _ x y hm0 hm1 hm2 (fun a b cc => hsv_to_rgb_length a b cc)))⟩
  · -- rgb / hsv on an `ndim`-4 image
    have hshape4 : (Arr.a4 w).shape = [3, x, y, z] := a4Shape_of_wf w 3 x y z hwf (by omega) hx hy
    have hck : c.checkDims (Arr.a4 w).shape = .ok () :=
      checkDims_rgbhsv c hss _ (by rw [hshape4]; rfl)
    have hne := elems_a4_ne w 3 x y z hwf (by omega) hx hy hz
    have hwfn := W4WF_map (normVal (c.effVmin (Arr.a4 w)) (c.effVmax (Arr.a4 w))) w 3 x y z hwf
    have hv0 := hwfn.2 _ (getD_mem _ 0 [] (by rw [hwfn.1]; omega))
    have hv1 := hwfn.2 _ (getD_mem _ 1 [] (by rw [hwfn.1]; omega))
    have hv2 := hwfn.2 _ (getD_mem _ 2 [] (by rw [hwfn.1]; omega))
    have hsp : c.spatialShape (Arr.a4 w) = [x, y, z] := by
      rcases hss with hss | hss <;> simp [Colorize.spatialShape, hss, isKeyword, hshape4]
    rcases hss with hss | hss
    · have hcol := colorize_rgb_a4 c hss
        (w.map (volMap (normVal (c.effVmin (Arr.a4 w)) (c.effVmax (Arr.a4 w))))) (Arr.a4 w).shape
      refine ⟨_, transform_run c (Arr.a4 w) none none hck hne hle none none rfl rfl _ hcol,
        ?_, vals01_outAMap_clip01 _⟩
      rw [hsp]
      simp only [applyAux, outAMap, OutA.hasShape, List.cons_append, List.nil_append]
      have hbase := Out4WF_volZip3 (fun a b cc => [a, b, cc]) _ _ _ x y z hv0 hv1 hv2
        (fun a b cc => rfl)
      have h1 := Out4WF_outMap (fun q => clip01 (q * c.scale)) _ x y z hbase
      have h2 := Out4WF_outMap clip01 _ x y z h1
      exact ⟨trivial, h2⟩
    · have hcol := colorize_hsv_a4 c hss
        (w.map (volMap (normVal (c.effVmin (Arr.a4 w)) (c.effVmax (Arr.a4 w))))) (Arr.a4 w).shape
      refine ⟨_, transform_run c (Arr.a4 w) none none hck hne hle none none rfl rfl _ hcol,
        ?_, vals01_outAMap_clip01 _⟩
      rw [hsp]
      simp only [applyAux, outAMap, OutA.hasShape, List.cons_append, List.nil_append]
      have hbase := Out4WF_volZip3 hsv_to_rgb _ _ _ x y z hv0 hv1 hv2
        (fun a b cc => hsv_to_rgb_length a b cc)
      have h1 := Out4WF_outMap (fun q => clip01 (q * c.scale)) _ x y z hbase
      have h2 := Out4WF_outMap clip01 _ x y z h1
      exact ⟨trivial, h2⟩
  · -- polar on an `ndim`-3 image
    have hshape3 : (Arr.a3 v).shape = [2, x, y] := volShape_of_wf v 2 x y hwf (by omega) hx
    have hck : c.checkDims (Arr.a3 v).shape = .ok () :=
      checkDims_polar c hss _ (by rw [hshape3]; rfl)
    have hne := elems_a3_ne v 2 x y hwf (by omega) hx hy
    have hwfn := VolWF_volMap (normVal (c.effVmin (Arr.a3 v)) (c.effVmax (Arr.a3 v)))
      v 2 x y hwf
    have hm0 := hwfn.2 _ (getD_mem _ 0 [] (by rw [hwfn.1]; omega))
    have hm1 := hwfn.2 _ (getD_mem _ 1 [] (by rw [hwfn.1]; omega))
    have hsp : c.spatialShape (Arr.a3 v) = [x, y] := by
      simp [Colorize.spatialShape, hss, isKeyword, hshape3]
    have hcol := colorize_polar_a3 c hss
      (volMap (normVal (c.effVmin (Arr.a3 v)) (c.effVmax (Arr.a3 v))) v) (Arr.a3 v).shape
    refine ⟨_, transform_run c (Arr.a3 v) none none hck hne hle none none rfl rfl _ hcol,
      ?_, vals01_outAMap_clip01 _⟩
    rw [hsp]
    simp only [applyAux, outAMap, OutA.hasShape, List.cons_append, List.nil_append]
    exact ⟨trivial, OutWF_outMap _ _ x y (OutWF_outMap _ _ x y
      (OutWF_matZip2 _ _ _ x y hm0 hm1 (fun a b => hsv_to_rgb_length _ _ _)))⟩
  · -- polar on an `ndim`-4 image
    have hshape4 : (Arr.a4 w).shape = [2, x, y, z] := a4Shape_of_wf w 2 x y z hwf (by omega) hx hy
    have hck : c.checkDims (Arr.a4 w).shape = .ok () :=
      checkDims_polar c hss _ (by rw [hshape4]; rfl)
    have hne := elems_a4_ne w 2 x y z hwf (by omega) hx hy hz
    have hwfn := W4WF_map (normVal (c.effVmin (Arr.a4 w)) (c.effVmax (Arr.a4 w))) w 2 x y z hwf
    have hv0 := hwfn.2 _ (getD_mem _ 0 [] (by rw [hwfn.1]; omega))
    have hv1 := hwfn.2 _ (getD_mem _ 1 [] (by rw [hwfn.1]; omega))
    have hsp : c.spatialShape (Arr.a4 w) = [x, y, z] := by
      simp [Colorize.spatialShape, hss, isKeyword, hshape4]
    have hcol := colorize_polar_a4 c hss
      (w.map (volMap (normVal (c.effVmin (Arr.a4 w)) (c.effVmax (Arr.a4 w))))) (Arr.a4 w).shape
    refine ⟨_, transform_run c (Arr.a4 w) none none hck hne hle none none rfl rfl _ hcol,
      ?_, vals01_outAMap_clip01 _⟩
    rw [hsp]
    simp only [applyAux, outAMap, OutA.hasShape, List.cons_append, List.nil_append]
    have hbase := Out4WF_volZip2 (polarPix c.scale) _ _ x y z hv0 hv1
      (fun a b => hsv_to_rgb_length _ _ _)
    have h1 := Out4WF_outMap (fun q => clip01 (q * c.scale)) _ x y z hbase
    have h2 := Out4WF_outMap clip01 _ x y z h1
    exact ⟨trivial, h2⟩
  · -- indexed on an `ndim`-3 image
    have hshape3 : (Arr.a3 v).shape = [c.colors.length, x, y] :=
      volShape_of_wf v c.colors.length x y hwf hcl hx
    have hck : c.checkDims (Arr.a3 v).shape = .ok () :=
      checkDims_indexed c hss _ (by rw [hshape3]; rfl)
    have hne := elems_a3_ne v c.colors.length x y hwf hcl hx hy
    have hwfn := VolWF_volMap (normVal (c.effVmin (Arr.a3 v)) (c.effVmax (Arr.a3 v)))
      v c.colors.length x y hwf
    have hsp : c.spatialShape (Arr.a3 v) = [x, y] := by
      simp [Colorize.spatialShape, hss, isKeyword, hshape3]
    have hcol := colorize_indexed_a3c c hss
      (volMap (normVal (c.effVmin (Arr.a3 v)) (c.effVmax (Arr.a3 v))) v) (Arr.a3 v).shape
      c.colors.length x y hshape3
    refine ⟨_, transform_run c (Arr.a3 v) none none hck hne hle none none rfl rfl _ hcol,
      ?_, vals01_outAMap_clip01 _⟩
    rw [hsp]
    simp only [applyAux, outAMap, OutA.hasShape, List.cons_append, List.nil_append]
    refine ⟨trivial, OutWF_outMap _ _ x y (OutWF_outMap _ _ x y ?_)⟩
    exact OutWF_indexedOut c.colors
      (volMap (normVal (c.effVmin (Arr.a3 v)) (c.effVmax (Arr.a3 v))) v) x y hc3
      (fun m hm => hwfn.2 m hm)
  · -- indexed on an `ndim`-4 image
    have hshape4 : (Arr.a4 w).shape = [c.colors.length, x, y, z] :=
      a4Shape_of_wf w c.colors.length x y z hwf hcl hx hy
    have hck : c.checkDims (Arr.a4 w).shape = .ok () :=
      checkDims_indexed c hss _ (by rw [hshape4]; rfl)
    have hne := elems_a4_ne w c.colors.length x y z hwf hcl hx hy hz
    have hwfn := W4WF_map (normVal (c.effVmin (Arr.a4 w)) (c.effVmax (Arr.a4 w)))
      w c.colors.length x y z hwf
    have hsp : c.spatialShape (Arr.a4 w) = [x, y, z] := by
      simp [Colorize.spatialShape, hss, isKeyword, hshape4]
    have hcol := colorize_indexed_a4c c hss
      (w.map (volMap (normVal (c.effVmin (Arr.a4 w)) (c.effVmax (Arr.a4 w))))) (Arr.a4 w).shape
      c.colors.length x y z hshape4
    refine ⟨_, transform_run c (Arr.a4 w) none none hck hne hle none none rfl rfl _ hcol,
      ?_, vals01_outAMap_clip01 _⟩
    rw [hsp]
    simp only [applyAux, outAMap, OutA.hasShape, List.cons_append, List.nil_append]
    have hbase := Out4WF_indexedOutV c.colors
      (w.map (volMap (normVal (c.effVmin (Arr.a4 w)) (c.effVmax (Arr.a4 w))))) x y z hc3
      (fun u hu => hwfn.2 u hu)
    have h1 := Out4WF_outMap (fun q => clip01 (q * c.scale)) _ x y z hbase
    have h2 := Out4WF_outMap clip01 _ x y z h1
    exact ⟨trivial, h2⟩
  · -- a recognized colormap name
    rcases hshape with ⟨m, x, y, rfl, hx, hy, hwf⟩ | ⟨v, x, y, z, rfl, hx, hy, hz, hwf⟩
    · have hshape2 : (Arr.a2 m).shape = [x, y] := matShape_of_wf m x y hwf hx
      have hck : c.checkDims (Arr.a2 m).shape = .ok () :=
        checkDims_nonkw c s hss hk _ (by rw [hshape2]; left; rfl)
      have hne := elems_a2_ne m x y hwf hx hy
      have hwfn := MatWF_matMap (normVal (c.effVmin (Arr.a2 m)) (c.effVmax (Arr.a2 m)))
        m x y hwf
      have hsp : c.spatialShape (Arr.a2 m) = [x, y] := by
        simp [Colorize.spatialShape, hss, hk, hshape2]
      have hcol := colorize_named_a2 c s hss hk hreg
        (matMap (normVal (c.effVmin (Arr.a2 m)) (c.effVmax (Arr.a2 m))) m) (Arr.a2 m).shape
      refine ⟨_, transform_run c (Arr.a2 m) none none hck hne hle none none rfl rfl _ hcol,
        ?_, vals01_outAMap_clip01 _⟩
      rw [hsp]
      simp only [applyAux, outAMap, OutA.hasShape, List.cons_append, List.nil_append]
      exact ⟨trivial, OutWF_outMap _ _ x y (OutWF_outMap _ _ x y
        (OutWF_mapPix _ _ x y hwfn (fun q => namedCmapCall_take3_length q)))⟩
    · have hshape3 : (Arr.a3 v).shape = [x, y, z] := volShape_of_wf v x y z hwf hx hy
      have hck : c.checkDims (Arr.a3 v).shape = .ok () :=
        checkDims_nonkw c s hss hk _ (by rw [hshape3]; right; rfl)
      have hne := elems_a3_ne v x y z hwf hx hy hz
      have hwfn := VolWF_volMap (normVal (c.effVmin (Arr.a3 v)) (c.effVmax (Arr.a3 v)))
        v x y z hwf
      have hsp : c.spatialShape (Arr.a3 v) = [x, y, z] := by
        simp [Colorize.spatialShape, hss, hk, hshape3]
      have hcol := colorize_named_a3 c s hss hk hreg
        (volMap (normVal (c.effVmin (Arr.a3 v)) (c.effVmax (Arr.a3 v))) v) (Arr.a3 v).shape
      refine ⟨_, transform_run c (Arr.a3 v) none none hck hne hle none none rfl rfl _ hcol,
        ?_, vals01_outAMap_clip01 _⟩
      rw [hsp]
      simp only [applyAux, outAMap, OutA.hasShape, List.cons_append, List.nil_append]
      have hbase : ((volMap (normVal (c.effVmin (Arr.a3 v)) (c.effVmax (Arr.a3 v))) v).map
          (fun mm => mm.map (List.map (fun q => (namedCmapCall q).take 3)))).length = x ∧
          ∀ u ∈ (volMap (normVal (c.effVmin (Arr.a3 v)) (c.effVmax (Arr.a3 v))) v).map
            (fun mm => mm.map (List.map (fun q => (namedCmapCall q).take 3))), OutWF y z u := by
        refine ⟨by rw [List.length_map, hwfn.1], ?_⟩
        intro u hu
        obtain ⟨m0, hm0, rfl⟩ := List.mem_map.mp hu
        exact OutWF_mapPix _ m0 y z (hwfn.2 m0 hm0) (fun q => namedCmapCall_take3_length q)
      have h1 := Out4WF_outMap (fun q => clip01 (q * c.scale)) _ x y z hbase
      have h2 := Out4WF_outMap clip01 _ x y z h1
      exact ⟨trivial, h2⟩
  · -- a `ListedColormap` object
    rcases hshape with ⟨m, x, y, rfl, hx, hy, hwf⟩ | ⟨v, x, y, z, rfl, hx, hy, hz, hwf⟩
    · have hshape2 : (Arr.a2 m).shape = [x, y] := matShape_of_wf m x y hwf hx
      have hck : c.checkDims (Arr.a2 m).shape = .ok () :=
        checkDims_listed c cm hss _ (by rw [hshape2]; left; rfl)
      have hne := elems_a2_ne m x y hwf hx hy
      have hwfn := MatWF_matMap (normVal (c.effVmin (Arr.a2 m)) (c.effVmax (Arr.a2 m)))
        m x y hwf
      have hsp : c.spatialShape (Arr.a2 m) = [x, y] := by
        simp [Colorize.spatialShape, hss, hshape2]
      have hcol := colorize_listed_a2 c cm hss
        (matMap (normVal (c.effVmin (Arr.a2 m)) (c.effVmax (Arr.a2 m))) m) (Arr.a2 m).shape
      refine ⟨_, transform_run c (Arr.a2 m) none none hck hne hle none none rfl rfl _ hcol,
        ?_, vals01_outAMap_clip01 _⟩
      rw [hsp]
      simp only [applyAux, outAMap, OutA.hasShape, List.cons_append, List.nil_append]
      exact ⟨trivial, OutWF_outMap _ _ x y (OutWF_outMap _ _ x y
        (OutWF_mapPix _ _ x y hwfn (fun q => listedCall_take3_length cm hlut q)))⟩
    · have hshape3 : (Arr.a3 v).shape = [x, y, z] := volShape_of_wf v x y z hwf hx hy
      have hck : c.checkDims (Arr.a3 v).shape = .ok () :=
        checkDims_listed c cm hss _ (by rw [hshape3]; right; rfl)
      have hne := elems_a3_ne v x y z hwf hx hy hz
      have hwfn := VolWF_volMap (normVal (c.effVmin (Arr.a3 v)) (c.effVmax (Arr.a3 v)))
        v x y z hwf
      have hsp : c.spatialShape (Arr.a3 v) = [x, y, z] := by
        simp [Colorize.spatialShape, hss, hshape3]
      have hcol := colorize_listed_a3 c cm hss
        (volMap (normVal (c.effVmin (Arr.a3 v)) (c.effVmax (Arr.a3 v))) v) (Arr.a3 v).shape
      refine ⟨_, transform_run c (Arr.a3 v) none none hck hne hle none none rfl rfl _ hcol,
        ?_, vals01_outAMap_clip01 _⟩
      rw [hsp]
      simp only [applyAux, outAMap, OutA.hasShape, List.cons_append, List.nil_append]
      have hbase : ((volMap (normVal (c.effVmin (Arr.a3 v)) (c.effVmax (Arr.a3 v))) v).map
          (fun mm => mm.map (List.map (fun q => (cm.call q).take 3)))).length = x ∧
          ∀ u ∈ (volMap (normVal (c.effVmin (Arr.a3 v)) (c.effVmax (Arr.a3 v))) v).map
            (fun mm => mm.map (List.map (fun q => (cm.call q).take 3))), OutWF y z u := by
        refine ⟨by rw [List.length_map, hwfn.1], ?_⟩
        intro u hu
        obtain ⟨m0, hm0, rfl⟩ := List.mem_map.mp hu
        exact OutWF_mapPix _ m0 y z (hwfn.2 m0 hm0) (fun q => listedCall_take3_length cm hlut q)
      have h1 := Out4WF_outMap (fun q => clip01 (q * c.scale)) _ x y z hbase
      have h2 := Out4WF_outMap clip01 _ x y z h1
      exact ⟨trivial, h2⟩

/-! ## Pixel access and congruence lemmas -/

theorem getD_map_lt {α β : Type} (f : α → β) (l : List α) (i : ℕ) (d : β) (d' : α)
    (h : i < l.length) : (l.map f).getD i d = f (l.getD i d') := by
  rw [List.getD_eq_getElem (l.map f) d (by rw [List.length_map]; exact h),
    List.getD_eq_getElem l d' h, List.getElem_map]

theorem getD_replicate_lt {α : Type} (a d : α) (n i : ℕ) (h : i < n) :
    (List.replicate n a).getD i d = a := by
  rw [List.getD_eq_getElem _ d (by rw [List.length_replicate]; exact h)]
  simp

theorem outPix_map (h : ℚ → ℚ) (o : Out) (i j : ℕ) :
    outPix (o.map (List.map (List.map h))) i j = (outPix o i j).map h := by
  unfold outPix
  by_cases hi : i < o.length
  · rw [getD_map_lt (List.map (List.map h)) o i [] [] hi]
    by_cases hj : j < (o.getD i []).length
    · rw [getD_map_lt (List.map h) _ j [] [] hj]
    · have h2 : (List.map (List.map h) (o.getD i [])).getD j [] = [] :=
        List.getD_eq_default _ _ (by rw [List.length_map]; omega)
      have h3 : (o.getD i []).getD j [] = [] := List.getD_eq_default _ _ (by omega)
      rw [h2, h3]
      rfl
  · have h1 : (List.map (List.map (List.map h)) o).getD i [] = [] :=
      List.getD_eq_default _ _ (by rw [List.length_map]; omega)
    have h2 : o.getD i [] = [] := List.getD_eq_default _ _ (by omega)
    rw [h1, h2]
    rfl

theorem matEntry_matMap (g : ℚ → ℚ) (m : Mat) (x y i j : ℕ) (h : MatWF x y m)
    (hi : i < x) (hj : j < y) : matEntry (matMap g m) i j = g (matEntry m i j) := by
  unfold matEntry matMap
  rw [getD_map_lt (List.map g) m i [] [] (h.1 ▸ hi)]
  rw [getD_map_lt g _ j 0 0 (by rw [h.2 _ (getD_mem m i [] (h.1 ▸ hi))]; exact hj)]

theorem outPix_matZip2 (f : ℚ → ℚ → Pix) (m0 m1 : Mat) (x y i j : ℕ)
    (h0 : MatWF x y m0) (h1 : MatWF x y m1) (hi : i < x) (hj : j < y) :
    outPix (matZip2 f m0 m1) i j = f (matEntry m0 i j) (matEntry m1 i j) := by
  unfold outPix matZip2 matEntry
  rw [zipWith_getD (List.zipWith f) m0 m1 i [] [] [] (h0.1 ▸ hi) (h1.1 ▸ hi)]
  rw [zipWith_getD f _ _ j 0 0 []
    (by rw [h0.2 _ (getD_mem m0 i [] (h0.1 ▸ hi))]; exact hj)
    (by rw [h1.2 _ (getD_mem m1 i [] (h1.1 ▸ hi))]; exact hj)]

theorem outPix_matZip3 (f : ℚ → ℚ → ℚ → Pix) (m0 m1 m2 : Mat) (x y i j : ℕ)
    (h0 : MatWF x y m0) (h1 : MatWF x y m1) (h2 : MatWF x y m2)
    (hi : i < x) (hj : j < y) :
    outPix (matZip3 f m0 m1 m2) i j =
      f (matEntry m0 i j) (matEntry m1 i j) (matEntry m2 i j) := by
  unfold outPix matZip3 matEntry
  rw [zipWith3_getD (zipWith3 f) m0 m1 m2 i [] [] [] []
    (h0.1 ▸ hi) (h1.1 ▸ hi) (h2.1 ▸ hi)]
  rw [zipWith3_getD f _ _ _ j 0 0 0 []
    (by rw [h0.2 _ (getD_mem m0 i [] (h0.1 ▸ hi))]; exact hj)
    (by rw [h1.2 _ (getD_mem m1 i [] (h1.1 ▸ hi))]; exact hj)
    (by rw [h2.2 _ (getD_mem m2 i [] (h2.1 ▸ hi))]; exact hj)]

theorem zipWith3_map_args {α β δ : Type} (f : β → β → β → δ) (g : α → β) :
    ∀ (as bs cs : List α),
      zipWith3 f (as.map g) (bs.map g) (cs.map g) =
        zipWith3 (fun a b cc => f (g a) (g b) (g cc)) as bs cs := by
  intro as
  induction as with
  | nil => intro bs cs; simp [zipWith3]
  | cons a as ih =>
    intro bs cs
    cases bs with
    | nil => simp [zipWith3]
    | cons b bs =>
      cases cs with
      | nil => simp [zipWith3]
      | cons c cs => simp only [List.map_cons, zipWith3, ih]

theorem zipWith3_congr_mem {α δ : Type} (f g : α → α → α → δ) :
    ∀ (as bs cs : List α),
      (∀ a ∈ as, ∀ b ∈ bs, ∀ c ∈ cs, f a b c = g a b c) →
      zipWith3 f as bs cs = zipWith3 g as bs cs := by
  intro as
  induction as with
  | nil => intro bs cs _; cases bs <;> cases cs <;> rfl
  | cons a as ih =>
    intro bs cs h
    cases bs with
    | nil => rfl
    | cons b bs =>
      cases cs with
      | nil => rfl
      | cons c cs =>
        simp only [zipWith3]
        refine congrArg₂ _ ?_ ?_
        · exact h a (List.mem_cons_self a as) b (List.mem_cons_self b bs)
            c (List.mem_cons_self c cs)
        · exact ih bs cs (fun a' ha b' hb c' hc =>
            h a' (List.mem_cons_of_mem a ha) b' (List.mem_cons_of_mem b hb)
              c' (List.mem_cons_of_mem c hc))

theorem map3_fix (h : ℚ → ℚ) (o : Out)
    (hfix : ∀ r ∈ o, ∀ p ∈ r, ∀ q ∈ p, h q = q) :
    o.map (List.map (List.map h)) = o := by
  have : ∀ r ∈ o, (List.map (List.map h)) r = r := by
    intro r hr
    have : ∀ p ∈ r, List.map h p = p := by
      intro p hp
      calc List.map h p = List.map id p := List.map_congr_left (hfix r hr p hp)
      _ = p := List.map_id p
    calc List.map (List.map h) r = List.map id r := List.map_congr_left this
    _ = r := List.map_id r
  calc o.map (List.map (List.map h)) = o.map id := List.map_congr_left this
  _ = o := List.map_id o

theorem outAMap_comp (f g : ℚ → ℚ) (o : OutA) :
    outAMap f (outAMap g o) = outAMap (fun q => f (g q)) o := by
  cases o <;> simp [outAMap, List.map_map, Function.comp_def]

theorem outAMap_congr (f g : ℚ → ℚ) (hfg : ∀ q, f q = g q) (o : OutA) :
    outAMap f o = outAMap g o := by
  have : f = g := funext hfg
  rw [this]

theorem mem_elems_a3 (v : Vol) (m : Mat) (r : List ℚ) (q : ℚ)
    (hm : m ∈ v) (hr : r ∈ m) (hq : q ∈ r) : q ∈ (Arr.a3 v).elems := by
  simp only [Arr.elems]
  refine List.mem_flatten.mpr ⟨m.flatten, List.mem_map_of_mem List.flatten hm, ?_⟩
  exact List.mem_flatten.mpr ⟨r, hr, hq⟩

theorem normVal_id (q : ℚ) (h0 : 0 ≤ q) (h1 : q ≤ 1) : normVal 0 1 q = q := by
  unfold normVal
  rw [if_neg (by norm_num)]
  rw [show (q - 0) / (1 - 0) = q by ring_nf]
  exact clip01_of_bounds q h0 h1

theorem ratSqrt_zero : ratSqrt 0 = 0 := by simp [ratSqrt]

theorem ratSqrt_one : ratSqrt 1 = 1 := by
  have := ratSqrt_mul_self 1 zero_le_one
  simpa using this

theorem clip01_pos (q : ℚ) (h : 0 < q) : 0 < clip01 q := by
  unfold clip01
  rw [if_neg (not_lt.mpr (le_of_lt h))]
  split
  · exact zero_lt_one
  · exact h

theorem rgbHue_pure_red (r : ℚ) (hr : 0 < r) : rgbHue [r, 0, 0] = 0 := by
  unfold rgbHue
  simp only [List.getD_cons_zero, List.getD_cons_succ]
  have hmax : max2 r (max2 0 0) = r := by
    unfold max2
    rw [if_neg (lt_irrefl 0), if_neg (not_lt.mpr (le_of_lt hr))]
  have hmin : min2 r (min2 0 0) = 0 := by
    unfold min2
    rw [if_neg (lt_irrefl 0), if_pos hr]
  rw [hmax, hmin, if_neg (by exact fun hh => absurd hh (ne_of_gt hr)), if_pos rfl]
  simp [fract]

theorem rgbSaturation_pure_red (r : ℚ) (hr : 0 < r) : rgbSaturation [r, 0, 0] = 1 := by
  unfold rgbSaturation
  simp only [List.getD_cons_zero, List.getD_cons_succ]
  have hmax : max2 r (max2 0 0) = r := by
    unfold max2
    rw [if_neg (lt_irrefl 0), if_neg (not_lt.mpr (le_of_lt hr))]
  have hmin : min2 r (min2 0 0) = 0 := by
    unfold min2
    rw [if_neg (lt_irrefl 0), if_pos hr]
  rw [hmax, hmin, if_neg (not_le.mpr hr), sub_zero, div_self (ne_of_gt hr)]

/-! ## Claims C9, C8, C2, C5 -/

/-- C9: `optimize` raises the invalid-input error exactly when the input
array has fewer than 2 dimensions; for 2 or more dimensions it proceeds
past the check. -/
theorem optimize_rank_check (mat : NArr) :
    Colorize.optimize mat = .error "Input array must be two-dimensional" ↔
      mat.ndim < 2 := by
  by_cases h : mat.ndim < 2
  · simp [Colorize.optimize, h]
  · simp [Colorize.optimize, h]

/-- C8: the code raises "Colorization method not understood" for a
colormap object that is not a `ListedColormap` (e.g. any
`LinearSegmentedColormap`, the class of most built-in matplotlib
colormaps), contradicting the claim (and the class docstring) that any
colormap object selector is accepted; a `ListedColormap` object on the
same image is accepted and colorized. -/
theorem transform_colormap_object_dispatch :
    (Colorize.mk (CMapSel.segObj [(0, [0, 0, 0]), (1, [1, 1, 1])]) 1 [] none none).transform
        (Arr.a2 [[0, 1]]) none none = .error "Colorization method not understood" ∧
    (Colorize.mk (CMapSel.listedObj ⟨[[1, 0, 0]]⟩) 1 [] none none).transform
        (Arr.a2 [[0, 1]]) none none = .ok (.o3 [[[1, 0, 0], [1, 0, 0]]]) := by
  constructor
  · simp [Colorize.transform, Colorize.checkDims, Colorize.colorize, Colorize.prepAux,
      effBound, Arr.shape, matShape, volShape, Arr.elems, arrMap, volMap, matMap,
      outAMap, applyAux]
    norm_num [normVal, clip01, listMin, listMax, min2, max2, List.foldl]
  · simp [Colorize.transform, Colorize.checkDims, Colorize.colorize, Colorize.prepAux,
      effBound, Arr.shape, matShape, volShape, Arr.elems, arrMap, volMap, matMap,
      outAMap, applyAux, ListedCM.call, lutIndex]
    norm_num [normVal, clip01, listMin, listMax, min2, max2, List.foldl, itrunc]

/-- C2: the background is NOT normalized to `[0, 1]` before being added —
`transform` passes it through `_prepareMask` (clip at 0), so a background
value of 2 adds 2 (saturating the middle pixel to 1), whereas the claimed
normalization (implemented by the never-invoked `_prepareBackground`)
would add 1/2.  The mask half of the claim (clip to non-negative) is what
the code applies — to both arrays. -/
theorem transform_background_not_normalized :
    (Colorize.mk (CMapSel.str "rgb") 1 [] none none).transform
        (Arr.a3 [[[0, 0, 0]], [[0, 0, 0]], [[0, 0, 0]]]) none (some (Arr.a2 [[0, 2, 4]])) =
      .ok (.o3 [[[0, 0, 0], [1, 1, 1], [1, 1, 1]]]) ∧
    (Colorize.mk (CMapSel.str "rgb") 1 [] none none).transformSpecBgNorm
        (Arr.a3 [[[0, 0, 0]], [[0, 0, 0]], [[0, 0, 0]]]) none (some (Arr.a2 [[0, 2, 4]])) =
      .ok (.o3 [[[0, 0, 0], [1/2, 1/2, 1/2], [1, 1, 1]]]) ∧
    ((1 : ℚ) ≠ 1/2) := by
  refine ⟨?_, ?_, by norm_num⟩
  · simp [Colorize.transform, Colorize.checkDims, Colorize.checkMixedDims,
      Colorize.colorize, Colorize.prepAux, effBound, Arr.shape, matShape, volShape,
      Arr.elems, arrMap, volMap, matMap, outAMap, applyAux, matZip3, zipWith3,
      blendA, blend2, mulOp, addOp]
    norm_num [normVal, clip01, clip0, listMin, listMax, min2, max2, List.foldl]
  · simp [Colorize.transformSpecBgNorm, Colorize.checkDims, Colorize.checkMixedDims,
      Colorize.colorize, Colorize.prepAux, effBound, Arr.shape, matShape, volShape,
      Arr.elems, arrMap, volMap, matMap, outAMap, applyAux, matZip3, zipWith3,
      blendA, blend2, mulOp, addOp, prepareBackground]
    norm_num [normVal, clip01, clip0, listMin, listMax, min2, max2, List.foldl,
      List.flatten]

/-- C5 counterexample: a 3×1×1 image with all values `1/2` (inside
`[0, 1]`) does not come back as its own transpose — auto-scaling maps the
constant array to `0`, so the output pixel is black, not `(1/2, 1/2, 1/2)`. -/
theorem rgb_scale1_not_identity_cex :
    (Colorize.mk (CMapSel.str "rgb") 1 [] none none).transform
        (Arr.a3 [[[1/2]], [[1/2]], [[1/2]]]) none none = .ok (.o3 [[[0, 0, 0]]]) ∧
    (OutA.o3 [[[0, 0, 0]]] ≠ OutA.o3 [[[1/2, 1/2, 1/2]]]) := by
  constructor
  · simp [Colorize.transform, Colorize.checkDims, Colorize.colorize, Colorize.prepAux,
      effBound, Arr.shape, matShape, volShape, Arr.elems, arrMap, volMap, matMap,
      outAMap, applyAux, matZip3, zipWith3]
    norm_num [normVal, clip01, listMin, listMax, min2, max2, List.foldl]
  · intro h
    simp only [OutA.o3.injEq] at h
    have := congrArg (fun l => outPix l 0 0) h
    simp only [outPix, List.getD_cons_zero] at this
    have := congrArg (fun p => p.getD 0 0) this
    norm_num at this

/-- C5 amended: for a 3×X×Y input whose observed minimum is 0 and maximum
is 1 (so the unconditional auto-scaling normalization is the identity on
it), the rgb scheme with `scale = 1` and unset bounds returns exactly the
input values transposed to X×Y×3. -/
theorem rgb_scale1_transpose_identity (c : Colorize) (v : Vol) (x y : ℕ)
    (hc : c.cmap = CMapSel.str "rgb") (hs1 : c.scale = 1)
    (hvn : c.vmin = none) (hvx : c.vmax = none)
    (hwf : VolWF 3 x y v) (hx : 0 < x) (hy : 0 < y)
    (hmin : listMin (Arr.a3 v).elems = 0) (hmax : listMax (Arr.a3 v).elems = 1) :
    c.transform (Arr.a3 v) none none =
      .ok (.o3 (matZip3 (fun a b cc => [a, b, cc])
        (v.getD 0 []) (v.getD 1 []) (v.getD 2 []))) := by
  have hevn : c.effVmin (Arr.a3 v) = 0 := by
    simp [Colorize.effVmin, hvn, hmin]
  have hevx : c.effVmax (Arr.a3 v) = 1 := by
    simp [Colorize.effVmax, hvx, hmax]
  have hbound : ∀ q ∈ (Arr.a3 v).elems, 0 ≤ q ∧ q ≤ 1 := fun q hq =>
    ⟨hmin ▸ listMin_le _ q hq, hmax ▸ le_listMax _ q hq⟩
  have hshape3 : (Arr.a3 v).shape = [3, x, y] := volShape_of_wf v 3 x y hwf (by omega) hx
  have hck : c.checkDims (Arr.a3 v).shape = .ok () :=
    checkDims_rgbhsv c (Or.inl hc) _ (by rw [hshape3]; rfl)
  have hne := elems_a3_ne v 3 x y hwf (by omega) hx hy
  have hle : c.effVmin (Arr.a3 v) ≤ c.effVmax (Arr.a3 v) := by
    rw [hevn, hevx]; norm_num
  have hcol := colorize_rgb_a3 c hc
    (volMap (normVal (c.effVmin (Arr.a3 v)) (c.effVmax (Arr.a3 v))) v) (Arr.a3 v).shape
  have hrun := transform_run c (Arr.a3 v) none none hck hne hle none none rfl rfl _ hcol
  rw [hrun]
  congr 1
  -- reduce the two post-maps to a single clip
  have hgrw : outAMap (fun q => clip01 (q * c.scale))
      (OutA.o3 (matZip3 (fun a b cc => [a, b, cc])
        ((volMap (normVal (c.effVmin (Arr.a3 v)) (c.effVmax (Arr.a3 v))) v).getD 0 [])
        ((volMap (normVal (c.effVmin (Arr.a3 v)) (c.effVmax (Arr.a3 v))) v).getD 1 [])
        ((volMap (normVal (c.effVmin (Arr.a3 v)) (c.effVmax (Arr.a3 v))) v).getD 2 []))) =
      outAMap clip01 (OutA.o3 (matZip3 (fun a b cc => [a, b, cc])
        ((volMap (normVal (c.effVmin (Arr.a3 v)) (c.effVmax (Arr.a3 v))) v).getD 0 [])
        ((volMap (normVal (c.effVmin (Arr.a3 v)) (c.effVmax (Arr.a3 v))) v).getD 1 [])
        ((volMap (normVal (c.effVmin (Arr.a3 v)) (c.effVmax (Arr.a3 v))) v).getD 2 []))) :=
    outAMap_congr _ _ (fun q => by rw [hs1, mul_one]) _
  rw [applyAux, applyAux, hgrw, outAMap_comp]
  have hclipid : outAMap (fun q => clip01 (clip01 q)) = outAMap clip01 := by
    refine congrArg outAMap (funext (fun q => clip01_idem q))
  rw [hclipid]
  -- identify the normalized channel planes
  have hg0 : (volMap (normVal (c.effVmin (Arr.a3 v)) (c.effVmax (Arr.a3 v))) v).getD 0 [] =
      matMap (normVal 0 1) (v.getD 0 []) := by
    rw [volMap, getD_map_lt _ v 0 [] [] (by rw [hwf.1]; omega), hevn, hevx]
  have hg1 : (volMap (normVal (c.effVmin (Arr.a3 v)) (c.effVmax (Arr.a3 v))) v).getD 1 [] =
      matMap (normVal 0 1) (v.getD 1 []) := by
    rw [volMap, getD_map_lt _ v 1 [] [] (by rw [hwf.1]; omega), hevn, hevx]
  have hg2 : (volMap (normVal (c.effVmin (Arr.a3 v)) (c.effVmax (Arr.a3 v))) v).getD 2 [] =
      matMap (normVal 0 1) (v.getD 2 []) := by
    rw [volMap, getD_map_lt _ v 2 [] [] (by rw [hwf.1]; omega), hevn, hevx]
  rw [hg0, hg1, hg2]
  -- fixpoint facts for members
  have hfix : ∀ k : ℕ, k < 3 → ∀ r ∈ v.getD k [], ∀ q ∈ r, normVal 0 1 q = q := by
    intro k hk r hr q hq
    have hb := hbound q (mem_elems_a3 v _ r q (getD_mem v k [] (by rw [hwf.1]; omega)) hr hq)
    exact normVal_id q hb.1 hb.2
  -- push the normalization through the zip and drop it
  have hcomm : matZip3 (fun a b cc => [a, b, cc])
      (matMap (normVal 0 1) (v.getD 0 [])) (matMap (normVal 0 1) (v.getD 1 []))
      (matMap (normVal 0 1) (v.getD 2 [])) =
      matZip3 (fun a b cc => [a, b, cc]) (v.getD 0 []) (v.getD 1 []) (v.getD 2 []) := by
    unfold matZip3 matMap
    rw [zipWith3_map_args (zipWith3 (fun a b cc => [a, b, cc])) (List.map (normVal 0 1))]
    rw [zipWith3_congr_mem _ (fun r0 r1 r2 => zipWith3
      (fun a b cc => [normVal 0 1 a, normVal 0 1 b, normVal 0 1 cc]) r0 r1 r2) _ _ _
      (fun r0 _ r1 _ r2 _ => zipWith3_map_args _ _ r0 r1 r2)]
    refine zipWith3_congr_mem _ _ _ _ _ ?_
    intro r0 h0 r1 h1 r2 h2
    refine zipWith3_congr_mem _ _ _ _ _ ?_
    intro a ha b hb cc hc2
    rw [hfix 0 (by omega) r0 h0 a ha, hfix 1 (by omega) r1 h1 b hb,
      hfix 2 (by omega) r2 h2 cc hc2]
  rw [hcomm]
  -- the final clip is the identity on values already in [0, 1]
  simp only [outAMap]
  refine congrArg OutA.o3 (map3_fix clip01 _ ?_)
  intro r hr p hp q hq
  obtain ⟨r0, h0, r1, h1, r2, h2, rfl⟩ := zipWith3_mem _ _ _ _ r hr
  obtain ⟨a, ha, b, hb, cc, hc2, rfl⟩ := zipWith3_mem _ _ _ _ p hp
  rcases List.mem_cons.mp hq with rfl | hq2
  · have hb2 := hbound q (mem_elems_a3 v _ r0 q (getD_mem v 0 [] (by rw [hwf.1]; omega)) h0 ha)
    exact clip01_of_bounds q hb2.1 hb2.2
  rcases List.mem_cons.mp hq2 with rfl | hq3
  · have hb2 := hbound q (mem_elems_a3 v _ r1 q (getD_mem v 1 [] (by rw [hwf.1]; omega)) h1 hb)
    exact clip01_of_bounds q hb2.1 hb2.2
  rcases List.mem_cons.mp hq3 with rfl | hq4
  · have hb2 := hbound q (mem_elems_a3 v _ r2 q (getD_mem v 2 [] (by rw [hwf.1]; omega)) h2 hc2)
    exact clip01_of_bounds q hb2.1 hb2.2
  · cases hq4

theorem prepAux_some (c : Colorize) (mask : Arr) (dims : List ℕ)
    (hok : c.checkMixedDims (arrMap clip0 mask).shape dims = .ok ()) :
    c.prepAux (some mask) dims = .ok (some (arrMap clip0 mask)) := by
  cases mask with
  | a2 m =>
    simp only [Colorize.prepAux]
    rw [show matShape (matMap clip0 m) = (arrMap clip0 (Arr.a2 m)).shape from rfl, hok]
    rfl
  | a3 v =>
    simp only [Colorize.prepAux]
    rw [show volShape (volMap clip0 v) = (arrMap clip0 (Arr.a3 v)).shape from rfl, hok]
    rfl
  | a4 w =>
    simp only [Colorize.prepAux]
    rw [hok]

/-! ## Claim C7 -/

/-- C7: with both a mask and a background supplied, the pipeline is the
fixed composition colorize (including the scale-and-clip post-step), then
per-channel multiplication by the clipped mask, then per-channel addition
of the clipped background, then a final clip to `[0, 1]`; and swapping the
mask and background applications changes the result on an input where
both overlap a nonzero region. -/
theorem transform_blend_order :
    (∀ (c : Colorize) (img mask bg : Arr) (out0 : OutA),
      c.checkDims img.shape = .ok () →
      img.elems.isEmpty = false →
      c.effVmin img ≤ c.effVmax img →
      c.colorize (arrMap (normVal (c.effVmin img) (c.effVmax img)) img) img.shape =
        .ok out0 →
      c.checkMixedDims (arrMap clip0 mask).shape img.shape = .ok () →
      c.checkMixedDims (arrMap clip0 bg).shape img.shape = .ok () →
      c.transform img none none = .ok (outAMap (fun q => clip01 (q * c.scale)) out0) ∧
      c.transform img (some mask) (some bg) =
        .ok (outAMap clip01 (blendA (blendA
          (outAMap (fun q => clip01 (q * c.scale)) out0)
          (arrMap clip0 mask) mulOp) (arrMap clip0 bg) addOp))) ∧
    ((Colorize.mk (CMapSel.str "rgb") 1 [] (some 0) (some 1)).transform
        (Arr.a3 [[[1/2]], [[1/2]], [[1/2]]])
        (some (Arr.a2 [[1/2]])) (some (Arr.a2 [[1/2]])) =
      .ok (.o3 [[[3/4, 3/4, 3/4]]])) ∧
    ((Colorize.mk (CMapSel.str "rgb") 1 [] (some 0) (some 1)).transformSwapBlend
        (Arr.a3 [[[1/2]], [[1/2]], [[1/2]]])
        (some (Arr.a2 [[1/2]])) (some (Arr.a2 [[1/2]])) =
      .ok (.o3 [[[1/2, 1/2, 1/2]]])) ∧
    ((3 : ℚ)/4 ≠ 1/2) := by
  refine ⟨?_, ?_, ?_, by norm_num⟩
  · intro c img mask bg out0 hck hne hle hcol hmOk hbOk
    have hidem : outAMap clip01 (outAMap (fun q => clip01 (q * c.scale)) out0) =
        outAMap (fun q => clip01 (q * c.scale)) out0 := by
      rw [outAMap_comp]
      exact outAMap_congr _ _ (fun q => clip01_idem _) out0
    constructor
    · have hrun := transform_run c img none none hck hne hle none none rfl rfl _ hcol
      rw [hrun]
      simp only [applyAux]
      rw [hidem]
    · have hrun := transform_run c img (some mask) (some bg) hck hne hle _ _
        (prepAux_some c mask img.shape hmOk) (prepAux_some c bg img.shape hbOk) _ hcol
      rw [hrun]
      simp only [applyAux]
  · simp [Colorize.transform, Colorize.checkDims, Colorize.checkMixedDims,
      Colorize.colorize, Colorize.prepAux, effBound, Arr.shape, matShape, volShape,
      Arr.elems, arrMap, volMap, matMap, outAMap, applyAux, matZip3, zipWith3,
      blendA, blend2, mulOp, addOp]
    norm_num [normVal, clip01, clip0, listMin, listMax, min2, max2, List.foldl]
  · simp [Colorize.transformSwapBlend, Colorize.checkDims, Colorize.checkMixedDims,
      Colorize.colorize, Colorize.prepAux, effBound, Arr.shape, matShape, volShape,
      Arr.elems, arrMap, volMap, matMap, outAMap, applyAux, matZip3, zipWith3,
      blendA, blend2, mulOp, addOp]
    norm_num [normVal, clip01, clip0, listMin, listMax, min2, max2, List.foldl]

/-- C7 witness: the blend-order theorem applied to a concrete 3×1×1 image
with a mask and background of 1/2. -/
theorem transform_blend_order_witness :
    (Colorize.mk (CMapSel.str "rgb") 1 [] (some 0) (some 1)).transform
        (Arr.a3 [[[1/2]], [[1/2]], [[1/2]]]) none none =
      .ok (outAMap (fun q => clip01 (q * 1)) (.o3 [[[1/2, 1/2, 1/2]]])) ∧
    (Colorize.mk (CMapSel.str "rgb") 1 [] (some 0) (some 1)).transform
        (Arr.a3 [[[1/2]], [[1/2]], [[1/2]]])
        (some (Arr.a2 [[1/2]])) (some (Arr.a2 [[1/2]])) =
      .ok (outAMap clip01 (blendA (blendA
        (outAMap (fun q => clip01 (q * 1)) (.o3 [[[1/2, 1/2, 1/2]]]))
        (arrMap clip0 (Arr.a2 [[1/2]])) mulOp) (arrMap clip0 (Arr.a2 [[1/2]])) addOp)) :=
  transform_blend_order.1 (Colorize.mk (CMapSel.str "rgb") 1 [] (some 0) (some 1))
    (Arr.a3 [[[1/2]], [[1/2]], [[1/2]]]) (Arr.a2 [[1/2]]) (Arr.a2 [[1/2]])
    (.o3 [[[1/2, 1/2, 1/2]]])
    (by simp [Colorize.checkDims, Arr.shape, matShape, volShape])
    (by simp [Arr.elems])
    (by norm_num [Colorize.effVmin, Colorize.effVmax])
    (by simp [Colorize.colorize, Colorize.effVmin, Colorize.effVmax, arrMap, volMap,
        matMap, matZip3, zipWith3]
        norm_num [normVal, clip01])
    (by simp [Colorize.checkMixedDims, arrMap, matMap, matShape, Arr.shape, volShape])
    (by simp [Colorize.checkMixedDims, arrMap, matMap, matShape, Arr.shape, volShape])

/-- C1 witness: the shape-and-range theorem applied to a concrete rgb
3×1×2 image. -/
theorem transform_output_shape_and_range_witness :
    ∃ o, (Colorize.mk (CMapSel.str "rgb") 1 [] none none).transform
        (Arr.a3 [[[0, 1]], [[0, 1]], [[0, 1]]]) none none = .ok o ∧
      o.hasShape ((Colorize.mk (CMapSel.str "rgb") 1 [] none none).spatialShape
        (Arr.a3 [[[0, 1]], [[0, 1]], [[0, 1]]]) ++ [3]) ∧ o.vals01 :=
  transform_output_shape_and_range _ _ (by
    refine ⟨?_, Or.inl ⟨_, rfl, Or.inl rfl, 1, 2, one_pos, by norm_num, ?_⟩⟩
    · norm_num [Colorize.effVmin, Colorize.effVmax, Arr.elems, List.flatten, listMin,
        listMax, min2, max2, List.foldl]
    · simp [VolWF, MatWF])

/-- C5 witness: the amended transpose-identity theorem applied to a
concrete 3×1×2 image attaining 0 and 1. -/
theorem rgb_scale1_transpose_identity_witness :
    (Colorize.mk (CMapSel.str "rgb") 1 [] none none).transform
        (Arr.a3 [[[0, 1]], [[0, 1]], [[0, 1]]]) none none =
      .ok (.o3 (matZip3 (fun a b cc => [a, b, cc]) [[0, 1]] [[0, 1]] [[0, 1]])) :=
  rgb_scale1_transpose_identity _ _ 1 2 rfl rfl rfl rfl (by simp [VolWF, MatWF])
    one_pos (by norm_num)
    (by norm_num [Arr.elems, List.flatten, listMin, min2, List.foldl])
    (by norm_num [Arr.elems, List.flatten, listMax, max2, List.foldl])

/-! ## Polar pixel formula and claims C3, C4, C10 -/

/-- Running the polar transform on an `ndim`-3 image, the output pixel is
the code's per-pixel conversion followed by the scale-and-clip post-step
and the final clip. -/
theorem transform_polar_pix_run (c : Colorize) (v : Vol) (x y : ℕ)
    (hc : c.cmap = CMapSel.str "polar") (hwf : VolWF 2 x y v)
    (hx : 0 < x) (hy : 0 < y)
    (hle : c.effVmin (Arr.a3 v) ≤ c.effVmax (Arr.a3 v)) (i j : ℕ)
    (hi : i < x) (hj : j < y) :
    ∃ o, c.transform (Arr.a3 v) none none = .ok (.o3 o) ∧
      outPix o i j =
        ((polarPix c.scale
          (normVal (c.effVmin (Arr.a3 v)) (c.effVmax (Arr.a3 v))
            (matEntry (v.getD 0 []) i j))
          (normVal (c.effVmin (Arr.a3 v)) (c.effVmax (Arr.a3 v))
            (matEntry (v.getD 1 []) i j))).map
          (fun q => clip01 (q * c.scale))).map clip01 := by
  have hshape3 : (Arr.a3 v).shape = [2, x, y] := volShape_of_wf v 2 x y hwf (by omega) hx
  have hck : c.checkDims (Arr.a3 v).shape = .ok () :=
    checkDims_polar c hc _ (by rw [hshape3]; rfl)
  have hne := elems_a3_ne v 2 x y hwf (by omega) hx hy
  have hwfn := VolWF_volMap (normVal (c.effVmin (Arr.a3 v)) (c.effVmax (Arr.a3 v)))
    v 2 x y hwf
  have hm0 := hwfn.2 _ (getD_mem _ 0 [] (by rw [hwfn.1]; omega))
  have hm1 := hwfn.2 _ (getD_mem _ 1 [] (by rw [hwfn.1]; omega))
  have hcol := colorize_polar_a3 c hc
    (volMap (normVal (c.effVmin (Arr.a3 v)) (c.effVmax (Arr.a3 v))) v) (Arr.a3 v).shape
  refine ⟨_, transform_run c (Arr.a3 v) none none hck hne hle none none rfl rfl _ hcol, ?_⟩
  show outPix (((matZip2 (polarPix c.scale)
      ((volMap (normVal (c.effVmin (Arr.a3 v)) (c.effVmax (Arr.a3 v))) v).getD 0 [])
      ((volMap (normVal (c.effVmin (Arr.a3 v)) (c.effVmax (Arr.a3 v))) v).getD 1 [])).map
      (List.map (List.map (fun q => clip01 (q * c.scale))))).map
      (List.map (List.map clip01))) i j = _
  rw [outPix_map, outPix_map,
    outPix_matZip2 (polarPix c.scale) _ _ x y i j hm0 hm1 hi hj]
  have hg0 : (volMap (normVal (c.effVmin (Arr.a3 v)) (c.effVmax (Arr.a3 v))) v).getD 0 [] =
      matMap (normVal (c.effVmin (Arr.a3 v)) (c.effVmax (Arr.a3 v))) (v.getD 0 []) :=
    getD_map_lt _ v 0 [] [] (by rw [hwf.1]; omega)
  have hg1 : (volMap (normVal (c.effVmin (Arr.a3 v)) (c.effVmax (Arr.a3 v))) v).getD 1 [] =
      matMap (normVal (c.effVmin (Arr.a3 v)) (c.effVmax (Arr.a3 v))) (v.getD 1 []) :=
    getD_map_lt _ v 1 [] [] (by rw [hwf.1]; omega)
  rw [hg0, hg1,
    matEntry_matMap _ _ x y i j (hwf.2 _ (getD_mem v 0 [] (by rw [hwf.1]; omega))) hi hj,
    matEntry_matMap _ _ x y i j (hwf.2 _ (getD_mem v 1 [] (by rw [hwf.1]; omega))) hi hj]

/-- C3 counterexample: with `scale = 6/5` on a polar image whose
normalized pixel is `(0, 1)`, the code (value fed unclipped) yields the
pixel `(18/25, 0, 1)` whereas clipping the value channel to `[0, 1]`
before the conversion (as the claim states) would yield `(3/5, 0, 1)`. -/
theorem polar_clip_before_cex :
    (Colorize.mk (CMapSel.str "polar") (6/5) [] none none).transform
        (Arr.a3 [[[0]], [[1]]]) none none = .ok (.o3 [[[18/25, 0, 1]]]) ∧
    (Colorize.mk (CMapSel.str "polar") (6/5) [] none none).transformSpecPolarClipBefore
        (Arr.a3 [[[0]], [[1]]]) none none = .ok (.o3 [[[3/5, 0, 1]]]) ∧
    ((18 : ℚ)/25 ≠ 3/5) := by
  refine ⟨?_, ?_, by norm_num⟩
  · simp [Colorize.transform, Colorize.checkDims, Colorize.colorize, Colorize.prepAux,
      effBound, Arr.shape, matShape, volShape, Arr.elems, arrMap, volMap, matMap,
      outAMap, applyAux, matZip2, List.zipWith]
    norm_num [normVal, clip01, listMin, listMax, min2, max2, List.foldl, polarPix,
      polarTheta, polarRho, atan2Turn, atanTurn, fract, ratSqrt_one, ratSqrt_zero,
      hsv_to_rgb, itrunc]
  · simp [Colorize.transformSpecPolarClipBefore, Colorize.checkDims, Colorize.prepAux,
      effBound, Arr.shape, matShape, volShape, Arr.elems, arrMap, volMap, matMap,
      outAMap, applyAux, matZip2, List.zipWith]
    norm_num [normVal, clip01, listMin, listMax, min2, max2, List.foldl,
      polarPixSpecClipBefore, polarTheta, polarRho, atan2Turn, atanTurn, fract,
      ratSqrt_one, ratSqrt_zero, hsv_to_rgb, itrunc]

/-- C3 amended: for every polar input pixel, the conversion receives
saturation fixed at the literal 1 and a value channel equal to the vector
magnitude times the brightness factor WITHOUT clipping; the `[0, 1]` clip
is applied only after the conversion, together with a second
multiplication by the factor. -/
theorem polar_value_unclipped (c : Colorize) (v : Vol) (x y : ℕ)
    (hc : c.cmap = CMapSel.str "polar") (hwf : VolWF 2 x y v)
    (hx : 0 < x) (hy : 0 < y)
    (hle : c.effVmin (Arr.a3 v) ≤ c.effVmax (Arr.a3 v)) (i j : ℕ)
    (hi : i < x) (hj : j < y) :
    ∃ o, c.transform (Arr.a3 v) none none = .ok (.o3 o) ∧
      outPix o i j =
        ((hsv_to_rgb
          (polarTheta
            (normVal (c.effVmin (Arr.a3 v)) (c.effVmax (Arr.a3 v))
              (matEntry (v.getD 0 []) i j))
            (normVal (c.effVmin (Arr.a3 v)) (c.effVmax (Arr.a3 v))
              (matEntry (v.getD 1 []) i j)))
          1
          (c.scale * polarRho
            (normVal (c.effVmin (Arr.a3 v)) (c.effVmax (Arr.a3 v))
              (matEntry (v.getD 0 []) i j))
            (normVal (c.effVmin (Arr.a3 v)) (c.effVmax (Arr.a3 v))
              (matEntry (v.getD 1 []) i j)))).map
          (fun q => clip01 (q * c.scale))).map clip01 :=
  transform_polar_pix_run c v x y hc hwf hx hy hle i j hi hj

/-- C3 witness: the amended polar statement applied at a concrete pixel. -/
theorem polar_value_unclipped_witness :
    ∃ o, (Colorize.mk (CMapSel.str "polar") (6/5) [] none none).transform
        (Arr.a3 [[[0]], [[1]]]) none none = .ok (.o3 o) ∧
      outPix o 0 0 =
        ((hsv_to_rgb
          (polarTheta
            (normVal ((Colorize.mk (CMapSel.str "polar") (6/5) [] none none).effVmin
                (Arr.a3 [[[0]], [[1]]]))
              ((Colorize.mk (CMapSel.str "polar") (6/5) [] none none).effVmax
                (Arr.a3 [[[0]], [[1]]]))
              (matEntry ([[[(0 : ℚ)]], [[1]]].getD 0 []) 0 0))
            (normVal ((Colorize.mk (CMapSel.str "polar") (6/5) [] none none).effVmin
                (Arr.a3 [[[0]], [[1]]]))
              ((Colorize.mk (CMapSel.str "polar") (6/5) [] none none).effVmax
                (Arr.a3 [[[0]], [[1]]]))
              (matEntry ([[[(0 : ℚ)]], [[1]]].getD 1 []) 0 0)))
          1
          ((6/5) * polarRho
            (normVal ((Colorize.mk (CMapSel.str "polar") (6/5) [] none none).effVmin
                (Arr.a3 [[[0]], [[1]]]))
              ((Colorize.mk (CMapSel.str "polar") (6/5) [] none none).effVmax
                (Arr.a3 [[[0]], [[1]]]))
              (matEntry ([[[(0 : ℚ)]], [[1]]].getD 0 []) 0 0))
            (normVal ((Colorize.mk (CMapSel.str "polar") (6/5) [] none none).effVmin
                (Arr.a3 [[[0]], [[1]]]))
              ((Colorize.mk (CMapSel.str "polar") (6/5) [] none none).effVmax
                (Arr.a3 [[[0]], [[1]]]))
              (matEntry ([[[(0 : ℚ)]], [[1]]].getD 1 []) 0 0)))).map
          (fun q => clip01 (q * (6/5)))).map clip01 :=
  polar_value_unclipped _ _ 1 1 rfl (by simp [VolWF, MatWF]) one_pos one_pos
    (by norm_num [Colorize.effVmin, Colorize.effVmax, Arr.elems, List.flatten,
      listMin, listMax, min2, max2, List.foldl])
    0 0 one_pos one_pos

theorem clip01_zero : clip01 0 = 0 := by norm_num [clip01]

theorem polarTheta_axis (a : ℚ) (ha : 0 < a) : polarTheta a 0 = 0 := by
  unfold polarTheta atan2Turn
  rw [neg_zero]
  rw [if_neg (lt_irrefl 0), if_neg (lt_irrefl 0),
    if_neg (not_lt.mpr (le_of_lt (neg_lt_zero.mpr ha))), if_pos (neg_lt_zero.mpr ha)]
  norm_num [fract]

theorem polarRho_axis (a : ℚ) (ha : 0 ≤ a) : polarRho a 0 = a := by
  unfold polarRho
  rw [show a ^ 2 + 0 ^ 2 = a ^ 2 by ring]
  exact ratSqrt_sq a ha

theorem hsv_to_rgb_red (w : ℚ) : hsv_to_rgb 0 1 w = [w, 0, 0] := by
  norm_num [hsv_to_rgb, itrunc]

/-- C4 counterexample: a polar pixel with raw components `(0, -2)` — in
the claimed "reference direction", with magnitude `2 ≥ 1/scale` — comes
out black (saturation 0), not red at full saturation, under the explicit
bounds `vmin = 0, vmax = 1` (normalization clips the negative component
away and the magnitude collapses to 0). -/
theorem polar_reference_direction_cex :
    (Colorize.mk (CMapSel.str "polar") 1 [] (some 0) (some 1)).transform
        (Arr.a3 [[[0]], [[-2]]]) none none = .ok (.o3 [[[0, 0, 0]]]) ∧
    rgbSaturation [0, 0, 0] = 0 ∧ ((0 : ℚ) ≠ 1) := by
  refine ⟨?_, by norm_num [rgbSaturation, max2, min2], by norm_num⟩
  simp [Colorize.transform, Colorize.checkDims, Colorize.colorize, Colorize.prepAux,
    effBound, Arr.shape, matShape, volShape, Arr.elems, arrMap, volMap, matMap,
    outAMap, applyAux, matZip2, List.zipWith]
  norm_num [normVal, clip01, listMin, listMax, min2, max2, List.foldl, polarPix,
    polarTheta, polarRho, atan2Turn, atanTurn, fract, ratSqrt_one, ratSqrt_zero,
    hsv_to_rgb, itrunc]

/-- C4 amended: a polar pixel yields hue 0 (red) at full saturation
precisely in terms of its NORMALIZED components: if the normalized
channel-0 value is positive and the normalized channel-1 value is 0
(e.g. under auto-scaling when the raw channel 0 is 0, the raw channel 1
is negative and attains the array minimum), and the brightness factor is
positive, the output pixel is the pure red
`[clip01(scale * c0n * scale), 0, 0]` — hue 0, saturation 1. -/
theorem polar_reference_direction_red (c : Colorize) (v : Vol) (x y : ℕ)
    (hc : c.cmap = CMapSel.str "polar") (hwf : VolWF 2 x y v)
    (hx : 0 < x) (hy : 0 < y)
    (hle : c.effVmin (Arr.a3 v) ≤ c.effVmax (Arr.a3 v)) (i j : ℕ)
    (hi : i < x) (hj : j < y) (hs : 0 < c.scale)
    (hA : 0 < normVal (c.effVmin (Arr.a3 v)) (c.effVmax (Arr.a3 v))
      (matEntry (v.getD 0 []) i j))
    (hB : normVal (c.effVmin (Arr.a3 v)) (c.effVmax (Arr.a3 v))
      (matEntry (v.getD 1 []) i j) = 0) :
    ∃ o, c.transform (Arr.a3 v) none none = .ok (.o3 o) ∧
      outPix o i j =
        [clip01 (c.scale * normVal (c.effVmin (Arr.a3 v)) (c.effVmax (Arr.a3 v))
          (matEntry (v.getD 0 []) i j) * c.scale), 0, 0] ∧
      rgbHue (outPix o i j) = 0 ∧ rgbSaturation (outPix o i j) = 1 := by
  obtain ⟨o, hok, hpix⟩ := transform_polar_pix_run c v x y hc hwf hx hy hle i j hi hj
  rw [hB] at hpix
  have hpp : polarPix c.scale
      (normVal (c.effVmin (Arr.a3 v)) (c.effVmax (Arr.a3 v))
        (matEntry (v.getD 0 []) i j)) 0 =
      [c.scale * normVal (c.effVmin (Arr.a3 v)) (c.effVmax (Arr.a3 v))
        (matEntry (v.getD 0 []) i j), 0, 0] := by
    unfold polarPix
    rw [polarTheta_axis _ hA, polarRho_axis _ (le_of_lt hA), hsv_to_rgb_red]
  rw [hpp] at hpix
  simp only [List.map_cons, List.map_nil] at hpix
  rw [zero_mul, clip01_zero, clip01_zero, clip01_idem] at hpix
  have hcomp : 0 < clip01 (c.scale * normVal (c.effVmin (Arr.a3 v))
      (c.effVmax (Arr.a3 v)) (matEntry (v.getD 0 []) i j) * c.scale) :=
    clip01_pos _ (mul_pos (mul_pos hs hA) hs)
  refine ⟨o, hok, hpix, ?_, ?_⟩
  · rw [hpix]
    exact rgbHue_pure_red _ hcomp
  · rw [hpix]
    exact rgbSaturation_pure_red _ hcomp

/-- C4 witness: the amended red-direction statement at a concrete polar
image whose raw pixel is `(0, -1)` with auto-scaling. -/
theorem polar_reference_direction_red_witness :
    ∃ o, (Colorize.mk (CMapSel.str "polar") 1 [] none none).transform
        (Arr.a3 [[[0]], [[-1]]]) none none = .ok (.o3 o) ∧
      outPix o 0 0 =
        [clip01 ((1 : ℚ) * normVal
          ((Colorize.mk (CMapSel.str "polar") 1 [] none none).effVmin
            (Arr.a3 [[[0]], [[-1]]]))
          ((Colorize.mk (CMapSel.str "polar") 1 [] none none).effVmax
            (Arr.a3 [[[0]], [[-1]]]))
          (matEntry ([[[(0 : ℚ)]], [[-1]]].getD 0 []) 0 0) * 1), 0, 0] ∧
      rgbHue (outPix o 0 0) = 0 ∧ rgbSaturation (outPix o 0 0) = 1 :=
  polar_reference_direction_red _ _ 1 1 rfl (by simp [VolWF, MatWF]) one_pos one_pos
    (by norm_num [Colorize.effVmin, Colorize.effVmax, Arr.elems, List.flatten,
      listMin, listMax, min2, max2, List.foldl])
    0 0 one_pos one_pos (by norm_num)
    (by norm_num [Colorize.effVmin, Colorize.effVmax, Arr.elems, List.flatten,
      listMin, listMax, min2, max2, List.foldl, normVal, clip01, matEntry])
    (by norm_num [Colorize.effVmin, Colorize.effVmax, Arr.elems, List.flatten,
      listMin, listMax, min2, max2, List.foldl, normVal, clip01, matEntry])

/-- C10: the brightness factor is applied twice on the polar path — the
magnitude is multiplied by `scale` before the HSV-to-RGB conversion
(inside the value channel) and the conversion's output is multiplied by
`scale` again before the clip to `[0, 1]`; concretely, with
`scale = 6/5` the output differs from applying the factor only once. -/
theorem polar_scale_applied_twice :
    (∀ (c : Colorize) (v : Vol) (x y : ℕ),
      c.cmap = CMapSel.str "polar" → VolWF 2 x y v → 0 < x → 0 < y →
      c.effVmin (Arr.a3 v) ≤ c.effVmax (Arr.a3 v) → ∀ i j : ℕ, i < x → j < y →
      ∃ o, c.transform (Arr.a3 v) none none = .ok (.o3 o) ∧
        outPix o i j =
          ((hsv_to_rgb
            (polarTheta
              (normVal (c.effVmin (Arr.a3 v)) (c.effVmax (Arr.a3 v))
                (matEntry (v.getD 0 []) i j))
              (normVal (c.effVmin (Arr.a3 v)) (c.effVmax (Arr.a3 v))
                (matEntry (v.getD 1 []) i j)))
            1
            (c.scale * polarRho
              (normVal (c.effVmin (Arr.a3 v)) (c.effVmax (Arr.a3 v))
                (matEntry (v.getD 0 []) i j))
              (normVal (c.effVmin (Arr.a3 v)) (c.effVmax (Arr.a3 v))
                (matEntry (v.getD 1 []) i j)))).map
            (fun q => clip01 (q * c.scale))).map clip01) ∧
    ((Colorize.mk (CMapSel.str "polar") (6/5) [] none none).transform
        (Arr.a3 [[[0]], [[1]]]) none none = .ok (.o3 [[[18/25, 0, 1]]])) ∧
    ((Colorize.mk (CMapSel.str "polar") (6/5) [] none none).transformPolarSingleScale
        (Arr.a3 [[[0]], [[1]]]) = .ok (.o3 [[[3/5, 0, 1]]])) ∧
    ((18 : ℚ)/25 ≠ 3/5) := by
  refine ⟨?_, ?_, ?_, by norm_num⟩
  · intro c v x y hc hwf hx hy hle i j hi hj
    exact transform_polar_pix_run c v x y hc hwf hx hy hle i j hi hj
  · simp [Colorize.transform, Colorize.checkDims, Colorize.colorize, Colorize.prepAux,
      effBound, Arr.shape, matShape, volShape, Arr.elems, arrMap, volMap, matMap,
      outAMap, applyAux, matZip2, List.zipWith]
    norm_num [normVal, clip01, listMin, listMax, min2, max2, List.foldl, polarPix,
      polarTheta, polarRho, atan2Turn, atanTurn, fract, ratSqrt_one, ratSqrt_zero,
      hsv_to_rgb, itrunc]
  · simp [Colorize.transformPolarSingleScale, Colorize.checkDims, Colorize.colorize,
      effBound, Arr.shape, matShape, volShape, Arr.elems, arrMap, volMap, matMap,
      outAMap, applyAux, matZip2, List.zipWith]
    norm_num [normVal, clip01, listMin, listMax, min2, max2, List.foldl, polarPix,
      polarTheta, polarRho, atan2Turn, atanTurn, fract, ratSqrt_one, ratSqrt_zero,
      hsv_to_rgb, itrunc]

/-- C10 witness: the universal double-scaling formula applied at a
concrete polar pixel. -/
theorem polar_scale_applied_twice_witness :
    ∃ o, (Colorize.mk (CMapSel.str "polar") (6/5) [] none none).transform
        (Arr.a3 [[[1]], [[0]]]) none none = .ok (.o3 o) ∧
      outPix o 0 0 =
        ((hsv_to_rgb
          (polarTheta
            (normVal ((Colorize.mk (CMapSel.str "polar") (6/5) [] none none).effVmin
                (Arr.a3 [[[1]], [[0]]]))
              ((Colorize.mk (CMapSel.str "polar") (6/5) [] none none).effVmax
                (Arr.a3 [[[1]], [[0]]]))
              (matEntry ([[[(1 : ℚ)]], [[0]]].getD 0 []) 0 0))
            (normVal ((Colorize.mk (CMapSel.str "polar") (6/5) [] none none).effVmin
                (Arr.a3 [[[1]], [[0]]]))
              ((Colorize.mk (CMapSel.str "polar") (6/5) [] none none).effVmax
                (Arr.a3 [[[1]], [[0]]]))
              (matEntry ([[[(1 : ℚ)]], [[0]]].getD 1 []) 0 0)))
          1
          ((6/5) * polarRho
            (normVal ((Colorize.mk (CMapSel.str "polar") (6/5) [] none none).effVmin
                (Arr.a3 [[[1]], [[0]]]))
              ((Colorize.mk (CMapSel.str "polar") (6/5) [] none none).effVmax
                (Arr.a3 [[[1]], [[0]]]))
              (matEntry ([[[(1 : ℚ)]], [[0]]].getD 0 []) 0 0))
            (normVal ((Colorize.mk (CMapSel.str "polar") (6/5) [] none none).effVmin
                (Arr.a3 [[[1]], [[0]]]))
              ((Colorize.mk (CMapSel.str "polar") (6/5) [] none none).effVmax
                (Arr.a3 [[[1]], [[0]]]))
              (matEntry ([[[(1 : ℚ)]], [[0]]].getD 1 []) 0 0)))).map
          (fun q => clip01 (q * (6/5)))).map clip01 :=
  polar_scale_applied_twice.1 _ _ 1 1 rfl (by simp [VolWF, MatWF]) one_pos one_pos
    (by norm_num [Colorize.effVmin, Colorize.effVmax, Arr.elems, List.flatten,
      listMin, listMax, min2, max2, List.foldl])
    0 0 one_pos one_pos

/-! ## Indexed scheme lemmas and claim C6 -/

theorem max2_zero_left (a : ℚ) (ha : 0 ≤ a) : max2 0 a = a := by
  unfold max2
  split
  · rfl
  · exact (le_antisymm (not_lt.mp (by assumption)) ha).symm

theorem max2_zero_right (a : ℚ) (ha : 0 ≤ a) : max2 a 0 = a := by
  unfold max2
  rw [if_neg (not_lt.mpr ha)]

theorem zipmax_left_id (p : Pix) (hlen : p.length = 3) (hpos : ∀ q ∈ p, 0 ≤ q) :
    List.zipWith max2 [0, 0, 0] p = p := by
  obtain ⟨a, b, c, rfl⟩ := List.length_eq_three.mp hlen
  simp only [List.zipWith_cons_cons, List.zipWith_nil_right]
  rw [max2_zero_left a (hpos a (by simp)), max2_zero_left b (hpos b (by simp)),
    max2_zero_left c (hpos c (by simp))]

theorem zipmax_right_id (p : Pix) (hlen : p.length = 3) (hpos : ∀ q ∈ p, 0 ≤ q) :
    List.zipWith max2 p [0, 0, 0] = p := by
  obtain ⟨a, b, c, rfl⟩ := List.length_eq_three.mp hlen
  simp only [List.zipWith_cons_cons, List.zipWith_nil_right]
  rw [max2_zero_right a (hpos a (by simp)), max2_zero_right b (hpos b (by simp)),
    max2_zero_right c (hpos c (by simp))]

theorem rampContrib_length (clr : Pix) (t : ℚ) (h3 : clr.length = 3) :
    (((ramp2 clr t).take 3).map clip01).length = 3 := by
  rw [List.length_map, List.length_take, ramp2, List.length_append, List.length_map, h3]
  rfl

theorem rampContrib_bounds (clr : Pix) (t : ℚ) :
    ∀ q ∈ ((ramp2 clr t).take 3).map clip01, 0 ≤ q ∧ q ≤ 1 := by
  intro q hq
  obtain ⟨q0, _, rfl⟩ := List.mem_map.mp hq
  exact ⟨clip01_nonneg q0, clip01_le_one q0⟩

theorem ramp0_black (clr : Pix) (h3 : clr.length = 3) :
    ((ramp2 clr 0).take 3).map clip01 = [0, 0, 0] := by
  obtain ⟨a, b, c, rfl⟩ := List.length_eq_three.mp h3
  simp [ramp2, clip01_zero]

theorem outPix_zeros (x y i j : ℕ) (hi : i < x) (hj : j < y) :
    outPix (List.replicate x (List.replicate y ([0, 0, 0] : Pix))) i j = [0, 0, 0] := by
  unfold outPix
  rw [getD_replicate_lt _ [] x i hi, getD_replicate_lt _ [] y j hj]

theorem outPix_indexedStep (clr : Pix) (chan : Mat) (acc : Out) (x y i j : ℕ)
    (hacc : OutWF x y acc) (hchan : MatWF x y chan) (hi : i < x) (hj : j < y) :
    outPix (indexedStep clr chan acc) i j =
      List.zipWith max2 (outPix acc i j)
        (((ramp2 clr (matEntry chan i j)).take 3).map clip01) := by
  unfold outPix indexedStep matEntry
  rw [zipWith_getD _ acc chan i [] [] [] (hacc.1 ▸ hi) (hchan.1 ▸ hi)]
  rw [zipWith_getD _ _ _ j [] 0 []
    (by rw [(hacc.2 _ (getD_mem acc i [] (hacc.1 ▸ hi))).1]; exact hj)
    (by rw [hchan.2 _ (getD_mem chan i [] (hchan.1 ▸ hi))]; exact hj)]

theorem outPix_indexedFold (x y i j : ℕ) (hi : i < x) (hj : j < y) :
    ∀ (L : List (Pix × Mat)), (∀ pa ∈ L, pa.1.length = 3 ∧ MatWF x y pa.2) →
    ∀ acc : Out, OutWF x y acc →
    outPix (L.foldl (fun acc p => indexedStep p.1 p.2 acc) acc) i j =
      L.foldl (fun accPix pa => List.zipWith max2 accPix
        (((ramp2 pa.1 (matEntry pa.2 i j)).take 3).map clip01)) (outPix acc i j) := by
  intro L
  induction L with
  | nil => intro _ acc _; rfl
  | cons pa L ih =>
    intro hL acc hacc
    have hpa := hL pa (List.mem_cons_self pa L)
    simp only [List.foldl_cons]
    rw [ih (fun q hq => hL q (List.mem_cons_of_mem pa hq)) _
      (OutWF_indexedStep pa.1 pa.2 acc x y hacc hpa.2 hpa.1)]
    rw [outPix_indexedStep pa.1 pa.2 acc x y i j hacc hpa.2 hi hj]

theorem foldl_zip_zipWith {α β γ δ : Type} (f : δ → γ → δ) (g : α → β → γ) :
    ∀ (as : List α) (bs : List β) (init : δ),
      (List.zip as bs).foldl (fun d p => f d (g p.1 p.2)) init =
        (List.zipWith g as bs).foldl f init := by
  intro as
  induction as with
  | nil => intro bs init; cases bs <;> rfl
  | cons a as ih =>
    intro bs init
    cases bs with
    | nil => rfl
    | cons b bs =>
      simp only [List.zip_cons_cons, List.zipWith_cons_cons, List.foldl_cons]
      exact ih bs _

theorem indexedPixSpec_bounds (colors : List Pix) (vals : List ℚ) :
    ∀ q ∈ indexedPixSpec colors vals, 0 ≤ q ∧ q ≤ 1 := by
  have key : ∀ (contribs : List Pix) (acc : Pix),
      (∀ p ∈ contribs, ∀ q ∈ p, 0 ≤ q ∧ q ≤ 1) → (∀ q ∈ acc, 0 ≤ q ∧ q ≤ 1) →
      ∀ q ∈ contribs.foldl (fun a p => List.zipWith max2 a p) acc, 0 ≤ q ∧ q ≤ 1 := by
    intro contribs
    induction contribs with
    | nil => intro acc _ hacc q hq; exact hacc q hq
    | cons p ps ih =>
      intro acc hc hacc
      simp only [List.foldl_cons]
      refine ih _ (fun p' hp' => hc p' (List.mem_cons_of_mem p hp')) ?_
      intro q hq
      obtain ⟨a, ha, b, hb, rfl⟩ := zipWith_mem max2 acc p q hq
      have hA := hacc a ha
      have hB := hc p (List.mem_cons_self p ps) b hb
      unfold max2
      split
      · exact hB
      · exact hA
  intro q hq
  refine key _ _ ?_ ?_ q hq
  · intro p hp
    obtain ⟨clr, _, t, _, rfl⟩ := zipWith_mem _ colors vals p hp
    exact rampContrib_bounds clr t
  · intro q2 hq2
    rcases List.mem_cons.mp hq2 with rfl | hq3
    · norm_num
    rcases List.mem_cons.mp hq3 with rfl | hq4
    · norm_num
    rcases List.mem_cons.mp hq4 with rfl | hq5
    · norm_num
    · cases hq5

theorem fold_black_absorb :
    ∀ (contribs : List Pix) (acc : Pix), (∀ p ∈ contribs, p = [0, 0, 0]) →
      acc.length = 3 → (∀ q ∈ acc, 0 ≤ q) →
      contribs.foldl (fun a p => List.zipWith max2 a p) acc = acc := by
  intro contribs
  induction contribs with
  | nil => intro acc _ _ _; rfl
  | cons p ps ih =>
    intro acc hb hlen hpos
    rw [List.foldl_cons, hb p (List.mem_cons_self p ps), zipmax_right_id acc hlen hpos]
    exact ih acc (fun p' hp' => hb p' (List.mem_cons_of_mem p hp')) hlen hpos

theorem mem_black_nonneg : ∀ q ∈ ([0, 0, 0] : Pix), 0 ≤ q := by
  intro q hq
  simp only [List.mem_cons, List.not_mem_nil, or_false, or_self] at hq
  rw [hq]

theorem indexedPixSpec_single :
    ∀ (colors : List Pix) (vals : List ℚ) (k : ℕ),
      vals.length = colors.length → (∀ clr ∈ colors, clr.length = 3) →
      k < colors.length →
      (∀ k2, k2 < colors.length → k2 ≠ k → vals.getD k2 0 = 0) →
      indexedPixSpec colors vals =
        ((ramp2 (colors.getD k []) (vals.getD k 0)).take 3).map clip01 := by
  intro colors
  induction colors with
  | nil => intro vals k _ _ hk _; simp at hk
  | cons clr colors ih =>
    intro vals k hlen hc3 hk hz
    cases vals with
    | nil => simp at hlen
    | cons val vals =>
      have hlen2 : vals.length = colors.length := by simpa using hlen
      cases k with
      | zero =>
        simp only [indexedPixSpec, List.zipWith_cons_cons, List.foldl_cons,
          List.getD_cons_zero]
        rw [zipmax_left_id _ (rampContrib_length clr val (hc3 clr (List.mem_cons_self _ _)))
          (fun q hq => (rampContrib_bounds clr val q hq).1)]
        refine fold_black_absorb _ _ ?_
          (rampContrib_length clr val (hc3 clr (List.mem_cons_self _ _)))
          (fun q hq => (rampContrib_bounds clr val q hq).1)
        intro p hp
        obtain ⟨clr', hclr', val', hval', rfl⟩ := zipWith_mem _ colors vals p hp
        obtain ⟨n, hn, rfl⟩ := List.getElem_of_mem hval'
        have hzn : vals[n] = 0 := by
          have := hz (n + 1) (by simp only [List.length_cons]; omega) (by omega)
          rwa [List.getD_cons_succ, List.getD_eq_getElem vals 0 hn] at this
        rw [hzn]
        exact ramp0_black clr' (hc3 clr' (List.mem_cons_of_mem clr hclr'))
      | succ k =>
        have hval0 : val = 0 := by
          have := hz 0 (by simp only [List.length_cons]; omega) (by omega)
          simpa using this
        simp only [indexedPixSpec, List.zipWith_cons_cons, List.foldl_cons,
          List.getD_cons_succ]
        rw [hval0, ramp0_black clr (hc3 clr (List.mem_cons_self _ _))]
        rw [zipmax_left_id [0, 0, 0] rfl mem_black_nonneg]
        exact ih vals k hlen2 (fun c hc => hc3 c (List.mem_cons_of_mem clr hc))
          (by simpa using hk)
          (fun k2 hk2 hne => by
            have := hz (k2 + 1) (by simp only [List.length_cons]; omega) (by omega)
            rwa [List.getD_cons_succ] at this)

/-- C6: with the `indexed` scheme at default brightness, every output
pixel is the per-component maximum, over all channels, of the channel's
normalized value mapped through its black-to-color linear ramp; in
particular a pixel whose normalized value is 0 in every channel but one
takes exactly that one channel's ramped color, with no contribution from
the other channels. -/
theorem indexed_pixel_componentwise_max (c : Colorize) (v : Vol) (x y : ℕ)
    (hc : c.cmap = CMapSel.str "indexed") (hs1 : c.scale = 1)
    (hcl : 0 < c.colors.length) (hc3 : ∀ clr ∈ c.colors, clr.length = 3)
    (hwf : VolWF c.colors.length x y v) (hx : 0 < x) (hy : 0 < y)
    (hle : c.effVmin (Arr.a3 v) ≤ c.effVmax (Arr.a3 v))
    (i j : ℕ) (hi : i < x) (hj : j < y) :
    ∃ o, c.transform (Arr.a3 v) none none = .ok (.o3 o) ∧
      outPix o i j = indexedPixSpec c.colors (v.map (fun m =>
        normVal (c.effVmin (Arr.a3 v)) (c.effVmax (Arr.a3 v)) (matEntry m i j))) ∧
      ∀ k : ℕ, k < c.colors.length →
        (∀ k2, k2 < c.colors.length → k2 ≠ k →
          normVal (c.effVmin (Arr.a3 v)) (c.effVmax (Arr.a3 v))
            (matEntry (v.getD k2 []) i j) = 0) →
        outPix o i j = ((ramp2 (c.colors.getD k [])
          (normVal (c.effVmin (Arr.a3 v)) (c.effVmax (Arr.a3 v))
            (matEntry (v.getD k []) i j))).take 3).map clip01 := by
  have hshape3 : (Arr.a3 v).shape = [c.colors.length, x, y] :=
    volShape_of_wf v c.colors.length x y hwf hcl hx
  have hck : c.checkDims (Arr.a3 v).shape = .ok () :=
    checkDims_indexed c hc _ (by rw [hshape3]; rfl)
  have hne := elems_a3_ne v c.colors.length x y hwf hcl hx hy
  have hwfn := VolWF_volMap (normVal (c.effVmin (Arr.a3 v)) (c.effVmax (Arr.a3 v)))
    v c.colors.length x y hwf
  have hcol := colorize_indexed_a3c c hc
    (volMap (normVal (c.effVmin (Arr.a3 v)) (c.effVmax (Arr.a3 v))) v) (Arr.a3 v).shape
    c.colors.length x y hshape3
  have hrun : c.transform (Arr.a3 v) none none = .ok (.o3
      (((indexedOut c.colors
        (volMap (normVal (c.effVmin (Arr.a3 v)) (c.effVmax (Arr.a3 v))) v) x y).map
        (List.map (List.map (fun q => clip01 (q * c.scale))))).map
        (List.map (List.map clip01)))) :=
    transform_run c (Arr.a3 v) none none hck hne hle none none rfl rfl _ hcol
  have hmain : outPix (((indexedOut c.colors
      (volMap (normVal (c.effVmin (Arr.a3 v)) (c.effVmax (Arr.a3 v))) v) x y).map
      (List.map (List.map (fun q => clip01 (q * c.scale))))).map
      (List.map (List.map clip01))) i j =
      indexedPixSpec c.colors (v.map (fun m =>
        normVal (c.effVmin (Arr.a3 v)) (c.effVmax (Arr.a3 v)) (matEntry m i j))) := by
    rw [outPix_map, outPix_map]
    have hzipmem : ∀ pa ∈ List.zip c.colors
        (volMap (normVal (c.effVmin (Arr.a3 v)) (c.effVmax (Arr.a3 v))) v),
        pa.1.length = 3 ∧ MatWF x y pa.2 := by
      intro pa hpa
      have hmem := List.of_mem_zip hpa
      exact ⟨hc3 pa.1 hmem.1, hwfn.2 pa.2 hmem.2⟩
    have hfold := outPix_indexedFold x y i j hi hj
      (List.zip c.colors (volMap (normVal (c.effVmin (Arr.a3 v)) (c.effVmax (Arr.a3 v))) v))
      hzipmem (List.replicate x (List.replicate y [0, 0, 0])) (OutWF_zeros x y)
    simp only [indexedOut]
    rw [hfold, outPix_zeros x y i j hi hj]
    have h1 := foldl_zip_zipWith (fun (d : Pix) (cc : Pix) => List.zipWith max2 d cc)
      (fun clr m => ((ramp2 clr (matEntry m i j)).take 3).map clip01)
      c.colors (volMap (normVal (c.effVmin (Arr.a3 v)) (c.effVmax (Arr.a3 v))) v)
      ([0, 0, 0] : Pix)
    rw [h1]
    have h2 : List.zipWith
        (fun clr m => ((ramp2 clr (matEntry m i j)).take 3).map clip01) c.colors
        (volMap (normVal (c.effVmin (Arr.a3 v)) (c.effVmax (Arr.a3 v))) v) =
        List.zipWith (fun clr t => ((ramp2 clr t).take 3).map clip01) c.colors
        ((volMap (normVal (c.effVmin (Arr.a3 v)) (c.effVmax (Arr.a3 v))) v).map
          (fun m => matEntry m i j)) :=
      (List.zipWith_map_right c.colors
        (volMap (normVal (c.effVmin (Arr.a3 v)) (c.effVmax (Arr.a3 v))) v)
        (fun m => matEntry m i j)
        (fun clr t => ((ramp2 clr t).take 3).map clip01)).symm
    have h3 : (volMap (normVal (c.effVmin (Arr.a3 v)) (c.effVmax (Arr.a3 v))) v).map
        (fun m => matEntry m i j) = v.map (fun m =>
          normVal (c.effVmin (Arr.a3 v)) (c.effVmax (Arr.a3 v)) (matEntry m i j)) := by
      rw [volMap, List.map_map]
      refine List.map_congr_left ?_
      intro m hm
      show matEntry (matMap _ m) i j = _
      rw [matEntry_matMap _ m x y i j (hwf.2 m hm) hi hj]
    rw [h2, h3]
    show List.map clip01 (List.map (fun q => clip01 (q * c.scale))
      (indexedPixSpec c.colors (v.map (fun m =>
        normVal (c.effVmin (Arr.a3 v)) (c.effVmax (Arr.a3 v)) (matEntry m i j))))) = _
    have hS := indexedPixSpec_bounds c.colors (v.map (fun m =>
      normVal (c.effVmin (Arr.a3 v)) (c.effVmax (Arr.a3 v)) (matEntry m i j)))
    have hg1 : (indexedPixSpec c.colors (v.map (fun m =>
        normVal (c.effVmin (Arr.a3 v)) (c.effVmax (Arr.a3 v)) (matEntry m i j)))).map
        (fun q => clip01 (q * c.scale)) =
        indexedPixSpec c.colors (v.map (fun m =>
          normVal (c.effVmin (Arr.a3 v)) (c.effVmax (Arr.a3 v)) (matEntry m i j))) := by
      calc (indexedPixSpec c.colors _).map (fun q => clip01 (q * c.scale)) =
          (indexedPixSpec c.colors _).map id := by
            refine List.map_congr_left ?_
            intro q hq
            have := hS q hq
            show clip01 (q * c.scale) = q
            rw [hs1, mul_one]
            exact clip01_of_bounds q this.1 this.2
      _ = _ := List.map_id _
    rw [hg1]
    calc (indexedPixSpec c.colors _).map clip01 = (indexedPixSpec c.colors _).map id := by
          refine List.map_congr_left ?_
          intro q hq
          have := hS q hq
          exact clip01_of_bounds q this.1 this.2
    _ = _ := List.map_id _
  refine ⟨_, hrun, hmain, ?_⟩
  intro k hk hzero
  rw [hmain]
  have hvlen : (v.map (fun m =>
      normVal (c.effVmin (Arr.a3 v)) (c.effVmax (Arr.a3 v)) (matEntry m i j))).length =
      c.colors.length := by rw [List.length_map, hwf.1]
  have hgetD : ∀ k2, k2 < c.colors.length →
      (v.map (fun m => normVal (c.effVmin (Arr.a3 v)) (c.effVmax (Arr.a3 v))
        (matEntry m i j))).getD k2 0 =
      normVal (c.effVmin (Arr.a3 v)) (c.effVmax (Arr.a3 v))
        (matEntry (v.getD k2 []) i j) := by
    intro k2 hk2
    exact getD_map_lt _ v k2 0 [] (by rw [hwf.1]; exact hk2)
  rw [indexedPixSpec_single c.colors _ k hvlen hc3 hk
    (fun k2 hk2 hne2 => by rw [hgetD k2 hk2]; exact hzero k2 hk2 hne2)]
  rw [hgetD k hk]

/-- C6 witness: the indexed per-pixel maximum theorem at a concrete
two-channel, two-color image. -/
theorem indexed_pixel_componentwise_max_witness :
    ∃ o, (Colorize.mk (CMapSel.str "indexed") 1 [[1, 0, 0], [0, 1, 0]] none none).transform
        (Arr.a3 [[[0, 1]], [[0, 0]]]) none none = .ok (.o3 o) ∧
      outPix o 0 1 = indexedPixSpec [[1, 0, 0], [0, 1, 0]]
        ([[[(0 : ℚ), 1]], [[0, 0]]].map (fun m =>
          normVal ((Colorize.mk (CMapSel.str "indexed") 1 [[1, 0, 0], [0, 1, 0]]
              none none).effVmin (Arr.a3 [[[0, 1]], [[0, 0]]]))
            ((Colorize.mk (CMapSel.str "indexed") 1 [[1, 0, 0], [0, 1, 0]]
              none none).effVmax (Arr.a3 [[[0, 1]], [[0, 0]]]))
            (matEntry m 0 1))) ∧
      ∀ k : ℕ, k < ([[1, 0, 0], [0, 1, 0]] : List Pix).length →
        (∀ k2, k2 < ([[1, 0, 0], [0, 1, 0]] : List Pix).length → k2 ≠ k →
          normVal ((Colorize.mk (CMapSel.str "indexed") 1 [[1, 0, 0], [0, 1, 0]]
              none none).effVmin (Arr.a3 [[[0, 1]], [[0, 0]]]))
            ((Colorize.mk (CMapSel.str "indexed") 1 [[1, 0, 0], [0, 1, 0]]
              none none).effVmax (Arr.a3 [[[0, 1]], [[0, 0]]]))
            (matEntry ([[[(0 : ℚ), 1]], [[0, 0]]].getD k2 []) 0 1) = 0) →
        outPix o 0 1 = ((ramp2 (([[1, 0, 0], [0, 1, 0]] : List Pix).getD k [])
          (normVal ((Colorize.mk (CMapSel.str "indexed") 1 [[1, 0, 0], [0, 1, 0]]
              none none).effVmin (Arr.a3 [[[0, 1]], [[0, 0]]]))
            ((Colorize.mk (CMapSel.str "indexed") 1 [[1, 0, 0], [0, 1, 0]]
              none none).effVmax (Arr.a3 [[[0, 1]], [[0, 0]]]))
            (matEntry ([[[(0 : ℚ), 1]], [[0, 0]]].getD k []) 0 1))).take 3).map clip01 :=
  indexed_pixel_componentwise_max _ _ 1 2 rfl rfl (by norm_num)
    (by intro clr hclr; simp at hclr; rcases hclr with rfl | rfl <;> rfl)
    (by simp [VolWF, MatWF]) one_pos (by norm_num)
    (by norm_num [Colorize.effVmin, Colorize.effVmax, Arr.elems, List.flatten,
      listMin, listMax, min2, max2, List.foldl])
    0 1 one_pos one_lt_two

/-- C9 witness: the rank check at a concrete 1-D input and a concrete
2-D input. -/
theorem optimize_rank_check_witness :
    (Colorize.optimize (NArr.a1 [1, 2, 3]) =
        .error "Input array must be two-dimensional" ↔ (NArr.a1 [1, 2, 3]).ndim < 2) ∧
    (Colorize.optimize (NArr.up (Arr.a2 [[1, 2], [3, 4]])) =
        .error "Input array must be two-dimensional" ↔
      (NArr.up (Arr.a2 [[1, 2], [3, 4]])).ndim < 2) :=
  ⟨optimize_rank_check (NArr.a1 [1, 2, 3]),
   optimize_rank_check (NArr.up (Arr.a2 [[1, 2], [3, 4]]))⟩

end Thunder
